import Mathlib

/-!
Verification of the basketball-analytics core: a shallow embedding of the
detector fusion stage, the centroid tracker, the trajectory analyzer and the
shot state machine, together with theorems settling the specified behaviour.

Conventions of the embedding:
* Python `dict` / `OrderedDict` values become insertion-ordered association
  lists (`List (Nat × α)`); assignment replaces the first matching key or
  appends, deletion removes the first matching key, mirroring dict semantics.
* Euclidean distances are compared through their squares (exact integer
  arithmetic); since squaring is monotone on nonnegative reals this preserves
  every comparison and every tie of the floating-point original.
* Python floats holding radii and confidences are modelled as rationals.
* `int(x / 2)` on a sum of two machine ints truncates toward zero, which is
  `Int.tdiv` here.
-/

namespace BasketballAnalytics

/-! ### Configuration constants (config.py) -/

def MAX_DISAPPEARED : Nat := 15
def MAX_TRACK_DISTANCE : Nat := 100
def FUSION_MATCH_DISTANCE : Nat := 30
def POLYFIT_DEGREE : Nat := 2

/-! ### Association-list helpers modelling Python dict operations -/

/-- Lookup of the first entry with the given key (`d[k]` / `d.get(k)`). -/
def dictGet {α : Type} : List (Nat × α) → Nat → Option α
  | [], _ => none
  | (k, v) :: rest, k0 => if k = k0 then some v else dictGet rest k0

/-- Assignment `d[k] = v`: replace the value at the first entry with this key,
or append a new entry when the key is absent. -/
def dictSet {α : Type} : List (Nat × α) → Nat → α → List (Nat × α)
  | [], k0, v0 => [(k0, v0)]
  | (k, v) :: rest, k0, v0 =>
    if k = k0 then (k0, v0) :: rest else (k, v) :: dictSet rest k0 v0

/-- Deletion `del d[k]`: remove the first entry with this key. -/
def dictDel {α : Type} : List (Nat × α) → Nat → List (Nat × α)
  | [], _ => []
  | (k, v) :: rest, k0 => if k = k0 then rest else (k, v) :: dictDel rest k0

/-! ### Geometry (utils.py) -/

/-- Squared Euclidean distance between two integer pixel points; the source's
`euclidean_distance` is its square root, and all uses compare or sort by it. -/
def euclidean_dist2 (p1 p2 : Int × Int) : Int :=
  (p1.1 - p2.1) ^ 2 + (p1.2 - p2.2) ^ 2

/-! ### Detections (detector.py) -/

/-- A single ball detection. -/
structure Detection where
  center : Int × Int
  radius : ℚ
  confidence : ℚ
  method : String
deriving DecidableEq, Repr

instance : Inhabited Detection := ⟨⟨(0, 0), 0, 0, ""⟩⟩

/-- The inner loop of `_fuse_detections` searching the best Hough match for
one contour detection: scan the enumerated Hough detections, skip consumed
indices, and keep the index of the strictly closest one seen so far; the
running best distance starts at the fusion cutoff, so a match must be
strictly closer than `FUSION_MATCH_DISTANCE`. -/
def best_match_loop (c : Detection) (used : List Nat) :
    List (Nat × Detection) → Int → Option Nat → Option Nat
  | [], _, best => best
  | (i, h) :: rest, best_dist2, best =>
    if i ∈ used then best_match_loop c used rest best_dist2 best
    else if euclidean_dist2 c.center h.center < best_dist2 then
      best_match_loop c used rest (euclidean_dist2 c.center h.center) (some i)
    else best_match_loop c used rest best_dist2 best

/-- Merging of one contour detection with its matched Hough detection:
averaged center (truncated toward zero as Python `int` does), averaged
radius, confidence boosted by +0.3 capped at 1.0, method `"fused"`. -/
def merge_fused (c h : Detection) : Detection :=
  { center := (Int.tdiv (c.center.1 + h.center.1) 2, Int.tdiv (c.center.2 + h.center.2) 2),
    radius := (c.radius + h.radius) / 2,
    confidence := min (c.confidence + 3 / 10) 1,
    method := "fused" }

/-- The outer loop of `_fuse_detections`: process each contour detection in
order, appending either the merged detection (consuming the matched Hough
index) or the contour detection unchanged. -/
def fuse_loop (hough_dets : List Detection) :
    List Detection → List Detection → List Nat → List Detection × List Nat
  | [], fused, used => (fused, used)
  | c :: cs, fused, used =>
    match best_match_loop c used hough_dets.enum ((FUSION_MATCH_DISTANCE : Int) ^ 2) none with
    | some i =>
      fuse_loop hough_dets cs (fused ++ [merge_fused c (hough_dets.getD i default)]) (used ++ [i])
    | none => fuse_loop hough_dets cs (fused ++ [c]) used

/-- `BallDetector._fuse_detections`: early pass-through returns on one-sided
input, otherwise the greedy proximity-matching loop followed by appending the
unconsumed Hough detections in order. -/
def fuse_detections (contour_dets hough_dets : List Detection) : List Detection :=
  if contour_dets = [] ∧ hough_dets = [] then []
  else if hough_dets = [] then contour_dets
  else if contour_dets = [] then hough_dets
  else
    let r := fuse_loop hough_dets contour_dets [] []
    r.1 ++ (hough_dets.enum.filter (fun p => decide (p.1 ∉ r.2))).map Prod.snd

/-! ### Spec-side fusion (claim C4), written from the specification text -/

/-- Selection of the nearest candidate: the entry with the least distance,
earliest listed on ties. -/
def nearest_select : List (Nat × Int) → Option (Nat × Int)
  | [] => none
  | (i, d) :: rest =>
    match nearest_select rest with
    | none => some (i, d)
    | some (j, e) => if d ≤ e then some (i, d) else some (j, e)

/-- Spec-side candidate set for one contour detection: the not-yet-consumed
Hough indices lying within the maximum fusion distance, each paired with its
squared distance, cut at an arbitrary squared bound `bd`. -/
def fuse_candidates (c : Detection) (used : List Nat) (bd : Int)
    (hough : List (Nat × Detection)) : List (Nat × Int) :=
  (hough.filter (fun p =>
      decide (p.1 ∉ used) && decide (euclidean_dist2 c.center p.2.center < bd))).map
    (fun p => (p.1, euclidean_dist2 c.center p.2.center))

/-- Spec-side match for one contour detection: the nearest not-yet-consumed
Hough detection within the configured maximum fusion distance, if any. -/
def spec_nearest (c : Detection) (used : List Nat) (hough : List (Nat × Detection)) :
    Option Nat :=
  (nearest_select (fuse_candidates c used ((FUSION_MATCH_DISTANCE : Int) ^ 2) hough)).map Prod.fst

/-- Spec-side fusion loop: contour detections processed in original order,
each matched via `spec_nearest`, merged and consuming the match when found,
passed through unchanged otherwise. -/
def fuse_spec_loop (hough_dets : List Detection) :
    List Detection → List Detection → List Nat → List Detection × List Nat
  | [], fused, used => (fused, used)
  | c :: cs, fused, used =>
    match spec_nearest c used hough_dets.enum with
    | some i =>
      fuse_spec_loop hough_dets cs (fused ++ [merge_fused c (hough_dets.getD i default)]) (used ++ [i])
    | none => fuse_spec_loop hough_dets cs (fused ++ [c]) used

/-- Fusion as the specification describes it: no special cases, just the
loop over contour detections followed by appending every unconsumed Hough
detection unchanged. -/
def fuse_spec (contour_dets hough_dets : List Detection) : List Detection :=
  let r := fuse_spec_loop hough_dets contour_dets [] []
  r.1 ++ (hough_dets.enum.filter (fun p => decide (p.1 ∉ r.2))).map Prod.snd

/-! ### Lemmas about `nearest_select` -/

lemma nearest_select_eq_none_iff {l : List (Nat × Int)} :
    nearest_select l = none ↔ l = [] := by
  cases l with
  | nil => simp [nearest_select]
  | cons hd tl =>
    obtain ⟨i, d⟩ := hd
    simp only [nearest_select]
    cases hns : nearest_select tl with
    | none => simp
    | some q =>
      obtain ⟨j, e⟩ := q
      by_cases hde : d ≤ e <;> simp [hde]

lemma nearest_select_mem {l : List (Nat × Int)} {p : Nat × Int}
    (h : nearest_select l = some p) : p ∈ l := by
  induction l generalizing p with
  | nil => simp [nearest_select] at h
  | cons hd tl ih =>
    obtain ⟨i, d⟩ := hd
    simp only [nearest_select] at h
    cases hns : nearest_select tl with
    | none =>
      rw [hns] at h
      simp only [Option.some.injEq] at h
      simp [← h]
    | some q =>
      obtain ⟨j, e⟩ := q
      rw [hns] at h
      by_cases hde : d ≤ e
      · simp only [if_pos hde, Option.some.injEq] at h
        simp [← h]
      · simp only [if_neg hde, Option.some.injEq] at h
        exact List.mem_cons_of_mem _ (h ▸ ih hns)

lemma nearest_select_min {l : List (Nat × Int)} {p : Nat × Int}
    (h : nearest_select l = some p) : ∀ q ∈ l, p.2 ≤ q.2 := by
  induction l generalizing p with
  | nil => simp [nearest_select] at h
  | cons hd tl ih =>
    obtain ⟨i, d⟩ := hd
    simp only [nearest_select] at h
    cases hns : nearest_select tl with
    | none =>
      rw [hns] at h
      simp only [Option.some.injEq] at h
      have htl : tl = [] := nearest_select_eq_none_iff.mp hns
      subst htl
      simp [← h]
    | some q =>
      obtain ⟨j, e⟩ := q
      rw [hns] at h
      intro q' hq'
      rcases List.mem_cons.mp hq' with hq' | hq'
      · subst hq'
        by_cases hde : d ≤ e
        · simp only [if_pos hde, Option.some.injEq] at h
          simp [← h]
        · simp only [if_neg hde, Option.some.injEq] at h
          subst h
          simp only
          omega
      · have hmin := ih hns q' hq'
        by_cases hde : d ≤ e
        · simp only [if_pos hde, Option.some.injEq] at h
          subst h
          simp only at hmin ⊢
          omega
        · simp only [if_neg hde, Option.some.injEq] at h
          subst h
          exact hmin

lemma nearest_select_filter {l : List (Nat × Int)} {j : Nat} {e d : Int}
    (h : nearest_select l = some (j, e)) (hed : e < d) :
    nearest_select (l.filter (fun q => decide (q.2 < d))) = some (j, e) := by
  induction l generalizing j e with
  | nil => simp [nearest_select] at h
  | cons hd tl ih =>
    obtain ⟨i, v⟩ := hd
    simp only [nearest_select] at h
    cases hns : nearest_select tl with
    | none =>
      rw [hns] at h
      simp only [Option.some.injEq, Prod.mk.injEq] at h
      obtain ⟨hj, he⟩ := h
      have htl : tl = [] := nearest_select_eq_none_iff.mp hns
      subst htl hj he
      simp [List.filter_cons, hed, nearest_select]
    | some q =>
      obtain ⟨j1, e1⟩ := q
      rw [hns] at h
      by_cases hde : v ≤ e1
      · simp only [if_pos hde, Option.some.injEq, Prod.mk.injEq] at h
        obtain ⟨hj, he⟩ := h
        subst hj he
        rw [List.filter_cons, if_pos (by simpa using hed)]
        simp only [nearest_select]
        cases hfns : nearest_select (tl.filter (fun q => decide (q.2 < d))) with
        | none => simp
        | some q2 =>
          have hq2 : q2 ∈ tl.filter (fun q => decide (q.2 < d)) := nearest_select_mem hfns
          have hq2tl : q2 ∈ tl := List.mem_of_mem_filter hq2
          have : e1 ≤ q2.2 := nearest_select_min hns q2 hq2tl
          have hle : v ≤ q2.2 := le_trans hde this
          obtain ⟨j2, e2⟩ := q2
          simp only at hle
          simp [hle]
      · simp only [if_neg hde, Option.some.injEq, Prod.mk.injEq] at h
        obtain ⟨hj, he⟩ := h
        subst hj he
        rw [List.filter_cons]
        by_cases hvd : v < d
        · rw [if_pos (by simpa using hvd)]
          simp only [nearest_select]
          rw [ih hns hed]
          simp [hde]
        · rw [if_neg (by simpa using hvd)]
          exact ih hns hed

/-! ### The source fusion match loop equals the spec-side nearest selection -/

lemma fuse_candidates_cons (c : Detection) (used : List Nat) (bd : Int)
    (i : Nat) (h : Detection) (rest : List (Nat × Detection)) :
    fuse_candidates c used bd ((i, h) :: rest)
      = if i ∉ used ∧ euclidean_dist2 c.center h.center < bd
        then (i, euclidean_dist2 c.center h.center) :: fuse_candidates c used bd rest
        else fuse_candidates c used bd rest := by
  simp only [fuse_candidates, List.filter_cons]
  by_cases h1 : i ∉ used ∧ euclidean_dist2 c.center h.center < bd
  · rw [if_pos (by simp [h1.1, h1.2]), if_pos h1]
    simp
  · rw [if_neg _, if_neg h1]
    simp only [Bool.and_eq_true, decide_eq_true_eq, not_and]
    intro hu hd
    exact h1 ⟨hu, hd⟩

lemma fuse_candidates_mono (c : Detection) (used : List Nat) {d bd : Int} (hdb : d ≤ bd)
    (hough : List (Nat × Detection)) :
    fuse_candidates c used d hough
      = (fuse_candidates c used bd hough).filter (fun q => decide (q.2 < d)) := by
  induction hough with
  | nil => simp [fuse_candidates]
  | cons hd rest ih =>
    obtain ⟨i, h⟩ := hd
    rw [fuse_candidates_cons, fuse_candidates_cons]
    by_cases hu : i ∉ used
    · by_cases h1 : euclidean_dist2 c.center h.center < d
      · rw [if_pos ⟨hu, h1⟩, if_pos ⟨hu, lt_of_lt_of_le h1 hdb⟩,
          List.filter_cons, if_pos (by simpa using h1)]
        rw [ih]
      · rw [if_neg (by intro hx; exact h1 hx.2)]
        by_cases h2 : euclidean_dist2 c.center h.center < bd
        · rw [if_pos ⟨hu, h2⟩, List.filter_cons, if_neg (by simpa using h1)]
          exact ih
        · rw [if_neg (by intro hx; exact h2 hx.2)]
          exact ih
    · rw [if_neg (by intro hx; exact hu hx.1), if_neg (by intro hx; exact hu hx.1)]
      exact ih

lemma best_match_loop_eq (c : Detection) (used : List Nat)
    (l : List (Nat × Detection)) :
    ∀ (bd : Int) (best : Option Nat),
      best_match_loop c used l bd best
        = (match nearest_select (fuse_candidates c used bd l) with
           | none => best
           | some p => some p.1) := by
  induction l with
  | nil => intro bd best; simp [best_match_loop, fuse_candidates, nearest_select]
  | cons hd rest ih =>
    intro bd best
    obtain ⟨i, h⟩ := hd
    rw [fuse_candidates_cons]
    by_cases hiu : i ∈ used
    · rw [best_match_loop, if_pos hiu, if_neg (by intro hx; exact hx.1 hiu)]
      exact ih bd best
    · by_cases hlt : euclidean_dist2 c.center h.center < bd
      · rw [best_match_loop, if_neg hiu, if_pos hlt, if_pos ⟨hiu, hlt⟩]
        rw [ih (euclidean_dist2 c.center h.center) (some i)]
        rw [fuse_candidates_mono c used (le_of_lt hlt) rest]
        simp only [nearest_select]
        cases hns : nearest_select (fuse_candidates c used bd rest) with
        | none =>
          have : fuse_candidates c used bd rest = [] := nearest_select_eq_none_iff.mp hns
          rw [this]
          simp [nearest_select]
        | some q =>
          obtain ⟨j, e⟩ := q
          by_cases hde : euclidean_dist2 c.center h.center ≤ e
          · have hemp : (fuse_candidates c used bd rest).filter
                (fun q => decide (q.2 < euclidean_dist2 c.center h.center)) = [] := by
              rw [List.filter_eq_nil_iff]
              intro a ha
              have := nearest_select_min hns a ha
              simp only [decide_eq_true_eq]
              omega
            rw [hemp]
            simp [nearest_select, hde]
          · have hlt2 : e < euclidean_dist2 c.center h.center := lt_of_not_le hde
            rw [nearest_select_filter hns hlt2]
            simp [hde]
      · rw [best_match_loop, if_neg hiu, if_neg hlt, if_neg (by intro hx; exact hlt hx.2)]
        exact ih bd best

lemma best_match_loop_spec (c : Detection) (used : List Nat)
    (hough : List (Nat × Detection)) :
    best_match_loop c used hough ((FUSION_MATCH_DISTANCE : Int) ^ 2) none
      = spec_nearest c used hough := by
  rw [best_match_loop_eq, spec_nearest]
  cases hns : nearest_select (fuse_candidates c used ((FUSION_MATCH_DISTANCE : Int) ^ 2) hough) with
  | none => simp
  | some p => simp

lemma fuse_loop_eq_spec (hough : List Detection) (cs : List Detection) :
    ∀ (fused : List Detection) (used : List Nat),
      fuse_loop hough cs fused used = fuse_spec_loop hough cs fused used := by
  induction cs with
  | nil => intro fused used; rfl
  | cons c cs ih =>
    intro fused used
    rw [fuse_loop, fuse_spec_loop, best_match_loop_spec]
    cases hsn : spec_nearest c used hough.enum with
    | none => exact ih _ _
    | some i => exact ih _ _

lemma fuse_spec_loop_nil_hough (cs : List Detection) :
    ∀ (fused : List Detection) (used : List Nat),
      fuse_spec_loop [] cs fused used = (fused ++ cs, used) := by
  induction cs with
  | nil => intro fused used; simp [fuse_spec_loop]
  | cons c cs ih =>
    intro fused used
    rw [fuse_spec_loop]
    have : spec_nearest c used ([] : List Detection).enum = none := by
      simp [spec_nearest, fuse_candidates, nearest_select]
    rw [this, ih]
    simp

/-- C4: fusion processes each contour detection in its original order,
matches it to the nearest not-yet-consumed Hough detection within the
configured maximum fusion distance, and on a match produces a detection with
averaged center and radius, the contour confidence boosted by +0.3 capped at
1.0 and method "fused", consuming that Hough detection; an unmatched contour
detection passes through unchanged, and every unconsumed Hough detection is
appended unchanged afterwards.  Stated as: the source fusion equals the
algorithm the specification describes. -/
theorem fuse_detections_eq_spec (contour_dets hough_dets : List Detection) :
    fuse_detections contour_dets hough_dets = fuse_spec contour_dets hough_dets := by
  rw [fuse_detections, fuse_spec]
  by_cases hc : contour_dets = []
  · by_cases hh : hough_dets = []
    · subst hc hh
      simp [fuse_spec_loop]
    · subst hc
      rw [if_neg (by simp [hh]), if_neg hh, if_pos rfl]
      rw [fuse_spec_loop]
      simp
  · by_cases hh : hough_dets = []
    · subst hh
      rw [if_neg (by simp [hc]), if_pos rfl, fuse_spec_loop_nil_hough]
      simp
    · rw [if_neg (by simp [hc]), if_neg hh, if_neg hc, fuse_loop_eq_spec]

/-- C5: fusion is an identity on one-sided input: fusing any contour list
with an empty Hough list returns the contour list unchanged, and fusing an
empty contour list with any Hough list returns the Hough list unchanged. -/
theorem fuse_detections_one_sided :
    (∀ contour_dets : List Detection, fuse_detections contour_dets [] = contour_dets) ∧
    (∀ hough_dets : List Detection, fuse_detections [] hough_dets = hough_dets) := by
  constructor
  · intro contour_dets
    rw [fuse_detections]
    by_cases hc : contour_dets = []
    · subst hc; simp
    · rw [if_neg (by simp [hc]), if_pos rfl]
  · intro hough_dets
    rw [fuse_detections]
    by_cases hh : hough_dets = []
    · subst hh; simp
    · rw [if_neg (by simp [hh]), if_neg hh, if_pos rfl]

/-! ### Centroid tracker (tracker.py) -/

/-- State of `CentroidTracker`: the two insertion-ordered maps, the
never-decreasing id counter and the configured thresholds. -/
structure CentroidTracker where
  next_id : Nat
  objects : List (Nat × (Int × Int))
  disappeared : List (Nat × Nat)
  max_disappeared : Nat
  max_distance : Nat
deriving DecidableEq, Repr

/-- Fresh tracker as `__init__` builds it from the configuration. -/
def CentroidTracker.init : CentroidTracker :=
  ⟨0, [], [], MAX_DISAPPEARED, MAX_TRACK_DISTANCE⟩

/-- `register`: store the centroid under the next available id and bump the
counter. -/
def register (st : CentroidTracker) (centroid : Int × Int) : CentroidTracker :=
  { st with objects := dictSet st.objects st.next_id centroid,
            disappeared := dictSet st.disappeared st.next_id 0,
            max_disappeared := st.max_disappeared,
            next_id := st.next_id + 1 }

/-- `deregister`: drop the object from both maps. -/
def deregister (st : CentroidTracker) (object_id : Nat) : CentroidTracker :=
  { st with objects := dictDel st.objects object_id,
            disappeared := dictDel st.disappeared object_id }

/-- The shared per-identity disappearance body of `update` (it appears
verbatim in the no-detection branch and in the unmatched-row loop):
increment the disappearance count and deregister once it exceeds
`max_disappeared`. -/
def inc_step (st : CentroidTracker) (object_id : Nat) : CentroidTracker :=
  let cnt1 := (dictGet st.disappeared object_id).getD 0 + 1
  let st1 := { st with disappeared := dictSet st.disappeared object_id cnt1 }
  if (dictGet st1.disappeared object_id).getD 0 > st1.max_disappeared then
    deregister st1 object_id
  else st1

/-- The pairwise distance matrix (squared): entry `(row, col)` is the
squared distance between existing centroid `row` and incoming centroid
`col`. -/
def dist_m (object_centroids input_centroids : List (Int × Int)) (p : Nat × Nat) : Int :=
  euclidean_dist2 (object_centroids.getD p.1 (0, 0)) (input_centroids.getD p.2 (0, 0))

/-- All `(row, col)` index pairs in row-major order, exactly the order
`np.unravel_index` yields for flattened indices of a C-ordered matrix. -/
def all_pairs (m n : Nat) : List (Nat × Nat) :=
  (List.range m).flatMap (fun row => (List.range n).map (fun col => (row, col)))

/-- Comparison of index pairs by distance, the key `np.argsort` sorts by. -/
def dist_le (D : Nat × Nat → Int) (p q : Nat × Nat) : Prop := D p ≤ D q

instance (D : Nat × Nat → Int) : DecidableRel (dist_le D) :=
  fun p q => inferInstanceAs (Decidable (D p ≤ D q))

instance (D : Nat × Nat → Int) : IsTotal (Nat × Nat) (dist_le D) :=
  ⟨fun a b => le_total (D a) (D b)⟩

instance (D : Nat × Nat → Int) : IsTrans (Nat × Nat) (dist_le D) :=
  ⟨fun _ _ _ hab hbc => le_trans hab hbc⟩

/-- Row-major flat position of an index pair, its original enumeration
order. -/
def flat_pos (n : Nat) (p : Nat × Nat) : Nat := p.1 * n + p.2

/-- Spec-side comparison: ascending distance with ties broken by original
enumeration order. -/
def dist_lex (D : Nat × Nat → Int) (n : Nat) (p q : Nat × Nat) : Prop :=
  D p < D q ∨ (D p = D q ∧ flat_pos n p ≤ flat_pos n q)

instance (D : Nat × Nat → Int) (n : Nat) : DecidableRel (dist_lex D n) :=
  fun p q =>
    inferInstanceAs (Decidable (D p < D q ∨ (D p = D q ∧ flat_pos n p ≤ flat_pos n q)))

/-- The greedy association loop of `update` as the source writes it: walk
the sorted pair list, `continue` past pairs with a consumed row or column,
`break` at the first remaining pair beyond the association distance, accept
everything else. -/
def greedy_loop (object_ids : List Nat) (input_centroids : List (Int × Int))
    (D : Nat × Nat → Int) (max_distance : Nat) :
    List (Nat × Nat) → List Nat → List Nat → List (Nat × (Int × Int)) →
      List Nat × List Nat × List (Nat × (Int × Int))
  | [], used_rows, used_cols, assignments => (used_rows, used_cols, assignments)
  | (row, col) :: rest, used_rows, used_cols, assignments =>
    if row ∈ used_rows ∨ col ∈ used_cols then
      greedy_loop object_ids input_centroids D max_distance rest used_rows used_cols assignments
    else if D (row, col) > (max_distance : Int) ^ 2 then
      (used_rows, used_cols, assignments)
    else
      greedy_loop object_ids input_centroids D max_distance rest
        (used_rows ++ [row]) (used_cols ++ [col])
        (dictSet assignments (object_ids.getD row 0) (input_centroids.getD col (0, 0)))

/-- Greedy association as the claim words it: iterate the whole sorted list,
accepting a pair exactly when neither index is consumed and the distance
does not exceed the maximum association distance. -/
def greedy_spec (object_ids : List Nat) (input_centroids : List (Int × Int))
    (D : Nat × Nat → Int) (max_distance : Nat) :
    List (Nat × Nat) → List Nat → List Nat → List (Nat × (Int × Int)) →
      List Nat × List Nat × List (Nat × (Int × Int))
  | [], used_rows, used_cols, assignments => (used_rows, used_cols, assignments)
  | (row, col) :: rest, used_rows, used_cols, assignments =>
    if row ∉ used_rows ∧ col ∉ used_cols ∧ D (row, col) ≤ (max_distance : Int) ^ 2 then
      greedy_spec object_ids input_centroids D max_distance rest
        (used_rows ++ [row]) (used_cols ++ [col])
        (dictSet assignments (object_ids.getD row 0) (input_centroids.getD col (0, 0)))
    else greedy_spec object_ids input_centroids D max_distance rest used_rows used_cols assignments

/-- The type of `np.argsort(dist_matrix, axis=None)` as the tracker uses
it: from the distance key and the row-major pair enumeration to an
enumeration of index pairs. -/
abbrev ArgSort : Type := (Nat × Nat → Int) → List (Nat × Nat) → List (Nat × Nat)

/-- Everything `np.argsort` guarantees about the order it returns: the
output enumerates exactly the input pairs, in ascending order of distance.
The default kind is quicksort, which NumPy does not document as stable, so
the embedding leaves the relative order of equal distances unspecified and
quantifies over every admissible argsort instead of fixing one. -/
def argsort_admissible (argsort : ArgSort) : Prop :=
  ∀ (D : Nat × Nat → Int) (l : List (Nat × Nat)),
    (argsort D l).Perm l ∧ (argsort D l).Pairwise (fun p q => D p ≤ D q)

/-- One admissible argsort: a stable sort by distance, keeping equal
distances in original enumeration order (what NumPy's small-array
insertion sort happens to do). -/
def insertion_argsort : ArgSort := fun D l => List.insertionSort (dist_le D) l

/-- Another admissible argsort: stable-sorting the reversed enumeration,
so equal distances come out in the reverse of enumeration order. -/
def reverse_argsort : ArgSort := fun D l => List.insertionSort (dist_le D) l.reverse

lemma insertion_argsort_admissible : argsort_admissible insertion_argsort := by
  intro D l
  exact ⟨List.perm_insertionSort _ _, List.sorted_insertionSort (dist_le D) l⟩

lemma reverse_argsort_admissible : argsort_admissible reverse_argsort := by
  intro D l
  exact ⟨(List.perm_insertionSort _ _).trans l.reverse_perm,
    List.sorted_insertionSort (dist_le D) l.reverse⟩

/-- The association phase of `update`: the argsort-produced pair
enumeration followed by the greedy loop, returning
`(used_rows, used_cols, assignments)`. -/
def associate (st : CentroidTracker) (argsort : ArgSort)
    (input_centroids : List (Int × Int)) :
    List Nat × List Nat × List (Nat × (Int × Int)) :=
  let object_ids := st.objects.map Prod.fst
  let D := dist_m (st.objects.map Prod.snd) input_centroids
  greedy_loop object_ids input_centroids D st.max_distance
    (argsort D (all_pairs object_ids.length input_centroids.length)) [] [] []

/-- Spec-side association: pairs sorted ascending by distance with ties
broken by original enumeration order, consumed greedily with the explicit
acceptance condition. -/
def associate_spec (st : CentroidTracker) (input_centroids : List (Int × Int)) :
    List Nat × List Nat × List (Nat × (Int × Int)) :=
  let object_ids := st.objects.map Prod.fst
  let D := dist_m (st.objects.map Prod.snd) input_centroids
  greedy_spec object_ids input_centroids D st.max_distance
    (List.insertionSort (dist_lex D input_centroids.length)
      (all_pairs object_ids.length input_centroids.length))
    [] [] []

/-- Post-association phase 1: each accepted identity gets the matched
centroid and a disappearance count of 0. -/
def update_matched (st : CentroidTracker) (assignments : List (Nat × (Int × Int))) :
    CentroidTracker :=
  assignments.foldl (fun s p =>
    { s with objects := dictSet s.objects p.1 p.2,
             disappeared := dictSet s.disappeared p.1 0 }) st

/-- Post-association phase 2: every row left unmatched has its identity's
disappearance count incremented (deregistering past the threshold). -/
def update_unmatched_rows (object_ids : List Nat) (used_rows : List Nat)
    (st : CentroidTracker) : CentroidTracker :=
  (List.range object_ids.length).foldl (fun s row =>
    if row ∈ used_rows then s else inc_step s (object_ids.getD row 0)) st

/-- Post-association phase 3: every incoming centroid left unmatched is
registered as a new identity, in input order. -/
def register_unmatched_cols (input_centroids : List (Int × Int)) (used_cols : List Nat)
    (st : CentroidTracker) : CentroidTracker :=
  (List.range input_centroids.length).foldl (fun s col =>
    if col ∈ used_cols then s else register s (input_centroids.getD col (0, 0))) st

/-- The three post-association phases in source order. -/
def update_main (st : CentroidTracker) (input_centroids : List (Int × Int))
    (r : List Nat × List Nat × List (Nat × (Int × Int))) : CentroidTracker :=
  register_unmatched_cols input_centroids r.2.1
    (update_unmatched_rows (st.objects.map Prod.fst) r.1 (update_matched st r.2.2))

/-- `CentroidTracker.update`: the three branches of the source — no
detections, no existing identities, and the association path — over a
given admissible model of `np.argsort`. -/
def CentroidTracker.update (st : CentroidTracker) (argsort : ArgSort)
    (detections : List Detection) : CentroidTracker :=
  let input_centroids := detections.map (fun d => d.center)
  if input_centroids.length = 0 then
    (st.disappeared.map Prod.fst).foldl inc_step st
  else if st.objects.length = 0 then
    input_centroids.foldl register st
  else
    update_main st input_centroids (associate st argsort input_centroids)

/-- The association path as the claim describes it, built on the spec-side
sorted enumeration and acceptance condition. -/
def CentroidTracker.update_spec (st : CentroidTracker) (detections : List Detection) :
    CentroidTracker :=
  let input_centroids := detections.map (fun d => d.center)
  update_main st input_centroids (associate_spec st input_centroids)

/-! ### The sorted pair enumeration: stable by construction -/

lemma all_pairs_mem {m n : Nat} {p : Nat × Nat} :
    p ∈ all_pairs m n ↔ p.1 < m ∧ p.2 < n := by
  obtain ⟨row, col⟩ := p
  simp only [all_pairs, List.mem_flatMap, List.mem_map, List.mem_range]
  constructor
  · rintro ⟨r, hr, c, hc, heq⟩
    obtain ⟨h1, h2⟩ := Prod.mk.injEq .. ▸ heq
    simp only [Prod.mk.injEq] at heq
    exact ⟨heq.1 ▸ hr, heq.2 ▸ hc⟩
  · rintro ⟨h1, h2⟩
    exact ⟨row, h1, col, h2, rfl⟩

lemma all_pairs_pairwise (m n : Nat) :
    (all_pairs m n).Pairwise (fun p q => flat_pos n p < flat_pos n q) := by
  induction m with
  | zero => simp [all_pairs]
  | succ m ih =>
    have hsplit : all_pairs (m + 1) n
        = all_pairs m n ++ (List.range n).map (fun col => (m, col)) := by
      rw [all_pairs, all_pairs, List.range_succ, List.flatMap_append]
      simp
    rw [hsplit, List.pairwise_append]
    refine ⟨ih, ?_, ?_⟩
    · rw [List.pairwise_map]
      refine (List.pairwise_lt_range n).imp ?_
      intro a b hab
      simp only [flat_pos]
      omega
    · intro a ha b hb
      have hamem := all_pairs_mem.mp ha
      simp only [List.mem_map, List.mem_range] at hb
      obtain ⟨col, hcol, rfl⟩ := hb
      simp only [flat_pos]
      have h1 : a.1 * n + a.2 < a.1 * n + n := by omega
      have h2 : a.1 * n + n ≤ m * n := by
        have h3 : (a.1 + 1) * n ≤ m * n := Nat.mul_le_mul_right n hamem.1
        have h4 : (a.1 + 1) * n = a.1 * n + n := by ring
        omega
      omega

lemma orderedInsert_congr {α : Type} (r1 r2 : α → α → Prop)
    [DecidableRel r1] [DecidableRel r2] (a : α) :
    ∀ l : List α, (∀ b ∈ l, r1 a b ↔ r2 a b) →
      List.orderedInsert r1 a l = List.orderedInsert r2 a l := by
  intro l
  induction l with
  | nil => intro _; rfl
  | cons b tl ih =>
    intro h
    rw [List.orderedInsert, List.orderedInsert]
    by_cases hr : r1 a b
    · rw [if_pos hr, if_pos ((h b (List.mem_cons_self b tl)).mp hr)]
    · rw [if_neg hr, if_neg (fun hx => hr ((h b (List.mem_cons_self b tl)).mpr hx))]
      rw [ih (fun x hx => h x (List.mem_cons_of_mem b hx))]

lemma insertionSort_congr {α : Type} (r1 r2 : α → α → Prop)
    [DecidableRel r1] [DecidableRel r2] (pos : α → Nat)
    (hiff : ∀ a b, pos a < pos b → (r1 a b ↔ r2 a b)) :
    ∀ l : List α, l.Pairwise (fun a b => pos a < pos b) →
      List.insertionSort r1 l = List.insertionSort r2 l := by
  intro l
  induction l with
  | nil => intro _; rfl
  | cons a tl ih =>
    intro hp
    have hcons := List.pairwise_cons.mp hp
    rw [List.insertionSort, List.insertionSort, ih hcons.2]
    apply orderedInsert_congr
    intro b hb
    have hbtl : b ∈ tl := (List.perm_insertionSort r2 tl).mem_iff.mp hb
    exact hiff a b (hcons.1 b hbtl)

lemma sort_pairs_eq (D : Nat × Nat → Int) (m n : Nat) :
    List.insertionSort (dist_le D) (all_pairs m n)
      = List.insertionSort (dist_lex D n) (all_pairs m n) := by
  apply insertionSort_congr (dist_le D) (dist_lex D n) (flat_pos n) _ _
    (all_pairs_pairwise m n)
  intro a b hpos
  unfold dist_le dist_lex
  constructor
  · intro h
    rcases lt_or_eq_of_le h with h | h
    · exact Or.inl h
    · exact Or.inr ⟨h, le_of_lt hpos⟩
  · intro h
    rcases h with h | ⟨h, _⟩
    · exact le_of_lt h
    · exact le_of_eq h

/-! ### Greedy loop with break equals greedy filter over the sorted list -/

lemma greedy_spec_none (object_ids : List Nat) (input_centroids : List (Int × Int))
    (D : Nat × Nat → Int) (max_distance : Nat) :
    ∀ (l : List (Nat × Nat)) ur uc asg,
      (∀ p ∈ l, ¬ D p ≤ (max_distance : Int) ^ 2) →
      greedy_spec object_ids input_centroids D max_distance l ur uc asg = (ur, uc, asg) := by
  intro l
  induction l with
  | nil => intro ur uc asg _; rfl
  | cons hd rest ih =>
    intro ur uc asg h
    obtain ⟨row, col⟩ := hd
    rw [greedy_spec, if_neg (fun hx => h (row, col) (List.mem_cons_self _ _) hx.2.2)]
    exact ih ur uc asg (fun p hp => h p (List.mem_cons_of_mem _ hp))

lemma greedy_loop_eq_spec (object_ids : List Nat) (input_centroids : List (Int × Int))
    (D : Nat × Nat → Int) (max_distance : Nat) :
    ∀ (l : List (Nat × Nat)), l.Pairwise (dist_le D) →
      ∀ ur uc asg, greedy_loop object_ids input_centroids D max_distance l ur uc asg
        = greedy_spec object_ids input_centroids D max_distance l ur uc asg := by
  intro l
  induction l with
  | nil => intro _ ur uc asg; rfl
  | cons hd rest ih =>
    intro hp ur uc asg
    obtain ⟨row, col⟩ := hd
    have hcons := List.pairwise_cons.mp hp
    by_cases hconf : row ∈ ur ∨ col ∈ uc
    · rw [greedy_loop, if_pos hconf, greedy_spec,
        if_neg (by rintro ⟨h1, h2, _⟩; rcases hconf with h | h; exacts [h1 h, h2 h])]
      exact ih hcons.2 ur uc asg
    · push_neg at hconf
      by_cases hd2 : D (row, col) > (max_distance : Int) ^ 2
      · rw [greedy_loop, if_neg (by rintro (h | h); exacts [hconf.1 h, hconf.2 h]), if_pos hd2,
          greedy_spec, if_neg (by rintro ⟨_, _, h3⟩; omega)]
        rw [greedy_spec_none object_ids input_centroids D max_distance rest ur uc asg]
        intro p hpmem
        have := hcons.1 p hpmem
        unfold dist_le at this
        omega
      · rw [greedy_loop, if_neg (by rintro (h | h); exacts [hconf.1 h, hconf.2 h]), if_neg hd2,
          greedy_spec, if_pos ⟨hconf.1, hconf.2, by omega⟩]
        exact ih hcons.2 _ _ _

lemma associate_insertion_eq_spec (st : CentroidTracker)
    (input_centroids : List (Int × Int)) :
    associate st insertion_argsort input_centroids = associate_spec st input_centroids := by
  unfold associate associate_spec insertion_argsort
  rw [greedy_loop_eq_spec _ _ _ _ _
    (List.sorted_insertionSort (dist_le (dist_m (st.objects.map Prod.snd) input_centroids)) _)]
  rw [sort_pairs_eq]

/-- Counterexample for C2: `reverse_argsort` satisfies everything
`np.argsort` guarantees — it enumerates all index pairs ascending by
distance — yet, at a concrete input with two existing identities
equidistant from one incoming centroid, running `update` with it produces
a different result than the claim's stable-tie description: the source does
not determine the tie order, so the claimed stable tie-break is not a
consequence of the program. -/
theorem tracker_update_stable_tie_counterexample :
    argsort_admissible reverse_argsort
    ∧ CentroidTracker.update
        ⟨2, [(0, ((0 : Int), (0 : Int))), (1, ((2 : Int), (0 : Int)))], [(0, 0), (1, 0)], 15, 100⟩
        reverse_argsort [⟨(1, 0), 2, 1/2, "contour"⟩]
      ≠ CentroidTracker.update_spec
        ⟨2, [(0, ((0 : Int), (0 : Int))), (1, ((2 : Int), (0 : Int)))], [(0, 0), (1, 0)], 15, 100⟩
        [⟨(1, 0), 2, 1/2, "contour"⟩] :=
  ⟨reverse_argsort_admissible, by decide⟩

/-- C2 (amended): on a tracker with at least one existing identity and a
non-empty detection list, `update` enumerates all (existing, incoming)
index pairs in some order ascending by Euclidean distance — the source
leaves the order of equal distances unspecified — and over that
enumeration greedily accepts a pair exactly when neither index is consumed
and its distance does not exceed the configured maximum association
distance (the break at the first pair over the maximum changes nothing on
an ascending enumeration), then updates each accepted identity's centroid
and resets its disappearance count, increments (deregistering past the
threshold) unmatched existing identities, and registers unmatched incoming
centroids; with the stable tie-break (ties in original enumeration order)
the update moreover equals the claim's full specification. -/
theorem tracker_update_eq_spec_any_tie_order (argsort : ArgSort)
    (hadm : argsort_admissible argsort) (st : CentroidTracker) (detections : List Detection)
    (hobj : ¬ st.objects.length = 0)
    (hdet : ¬ (detections.map (fun d => d.center)).length = 0) :
    (st.update argsort detections
      = update_main st (detections.map (fun d => d.center))
          (greedy_spec (st.objects.map Prod.fst) (detections.map (fun d => d.center))
            (dist_m (st.objects.map Prod.snd) (detections.map (fun d => d.center)))
            st.max_distance
            (argsort (dist_m (st.objects.map Prod.snd) (detections.map (fun d => d.center)))
              (all_pairs (st.objects.map Prod.fst).length
                (detections.map (fun d => d.center)).length)) [] [] []))
    ∧ st.update insertion_argsort detections = st.update_spec detections := by
  constructor
  · simp only [CentroidTracker.update, if_neg hdet, if_neg hobj]
    unfold associate
    rw [greedy_loop_eq_spec _ _ _ _ _ (hadm _ _).2]
  · simp only [CentroidTracker.update, CentroidTracker.update_spec, if_neg hdet, if_neg hobj]
    rw [associate_insertion_eq_spec]

/-- Witness for the amended C2 at a concrete tracker state and detection
list, with the stable argsort instance. -/
theorem tracker_update_eq_spec_any_tie_order_witness :
    argsort_admissible insertion_argsort
    ∧ (¬ (⟨2, [(0, ((0 : Int), (0 : Int))), (1, ((50 : Int), (0 : Int)))],
          [(0, 0), (1, 2)], 15, 100⟩ : CentroidTracker).objects.length = 0)
    ∧ (CentroidTracker.update
        ⟨2, [(0, ((0 : Int), (0 : Int))), (1, ((50 : Int), (0 : Int)))], [(0, 0), (1, 2)], 15, 100⟩
        insertion_argsort
        [⟨(45, 5), 3, 1/2, "hough"⟩, ⟨(3, 4), 2, 1/2, "contour"⟩, ⟨(300, 300), 2, 1/2, "contour"⟩]
      = CentroidTracker.update_spec
        ⟨2, [(0, ((0 : Int), (0 : Int))), (1, ((50 : Int), (0 : Int)))], [(0, 0), (1, 2)], 15, 100⟩
        [⟨(45, 5), 3, 1/2, "hough"⟩, ⟨(3, 4), 2, 1/2, "contour"⟩, ⟨(300, 300), 2, 1/2, "contour"⟩]) :=
  ⟨insertion_argsort_admissible, by decide,
   (tracker_update_eq_spec_any_tie_order insertion_argsort insertion_argsort_admissible
      _ _ (by decide) (by decide)).2⟩

/-! ### Dictionary lemmas -/

lemma dictGet_dictSet_self {α : Type} (l : List (Nat × α)) (k : Nat) (v : α) :
    dictGet (dictSet l k v) k = some v := by
  induction l with
  | nil => simp [dictSet, dictGet]
  | cons hd tl ih =>
    obtain ⟨k1, v1⟩ := hd
    rw [dictSet]
    by_cases h : k1 = k
    · rw [if_pos h, dictGet, if_pos rfl]
    · rw [if_neg h, dictGet, if_neg h]
      exact ih

lemma dictGet_dictSet_ne {α : Type} (l : List (Nat × α)) (k k0 : Nat) (v : α)
    (h : k0 ≠ k) : dictGet (dictSet l k v) k0 = dictGet l k0 := by
  induction l with
  | nil => simp [dictSet, dictGet, Ne.symm h]
  | cons hd tl ih =>
    obtain ⟨k1, v1⟩ := hd
    rw [dictSet]
    by_cases h1 : k1 = k
    · rw [if_pos h1, dictGet, dictGet, if_neg (fun he => h he.symm), if_neg (h1 ▸ fun he => h he.symm)]
    · rw [if_neg h1, dictGet, dictGet]
      by_cases h2 : k1 = k0
      · rw [if_pos h2, if_pos h2]
      · rw [if_neg h2, if_neg h2]
        exact ih

lemma dictGet_dictDel_ne {α : Type} (l : List (Nat × α)) (k k0 : Nat)
    (h : k0 ≠ k) : dictGet (dictDel l k) k0 = dictGet l k0 := by
  induction l with
  | nil => simp [dictDel]
  | cons hd tl ih =>
    obtain ⟨k1, v1⟩ := hd
    rw [dictDel]
    by_cases h1 : k1 = k
    · rw [if_pos h1, dictGet, if_neg (h1 ▸ fun he => h he.symm)]
    · rw [if_neg h1, dictGet, dictGet]
      by_cases h2 : k1 = k0
      · rw [if_pos h2, if_pos h2]
      · rw [if_neg h2, if_neg h2]
        exact ih

lemma dictGet_eq_none_iff {α : Type} (l : List (Nat × α)) (k : Nat) :
    dictGet l k = none ↔ k ∉ l.map Prod.fst := by
  induction l with
  | nil => simp [dictGet]
  | cons hd tl ih =>
    obtain ⟨k1, v1⟩ := hd
    rw [dictGet]
    by_cases h : k1 = k
    · subst h
      simp
    · rw [if_neg h]
      simp only [List.map_cons, List.mem_cons]
      rw [ih]
      constructor
      · rintro hn (h1 | h1)
        · exact h h1.symm
        · exact hn h1
      · intro hn
        exact fun h1 => hn (Or.inr h1)

lemma dictGet_isSome_iff {α : Type} (l : List (Nat × α)) (k : Nat) :
    (dictGet l k).isSome = true ↔ k ∈ l.map Prod.fst := by
  rw [Option.isSome_iff_ne_none, Ne, dictGet_eq_none_iff, Decidable.not_not]

lemma keys_dictDel {α : Type} (l : List (Nat × α)) (k : Nat) :
    (dictDel l k).map Prod.fst = (l.map Prod.fst).erase k := by
  induction l with
  | nil => simp [dictDel]
  | cons hd tl ih =>
    obtain ⟨k1, v1⟩ := hd
    rw [dictDel]
    by_cases h : k1 = k
    · subst h
      simp [List.erase_cons_head]
    · rw [if_neg h]
      simp only [List.map_cons]
      rw [List.erase_cons_tail (by simpa using h), ih]

lemma dictGet_dictDel_self {α : Type} (l : List (Nat × α)) (k : Nat)
    (h : (l.map Prod.fst).Nodup) : dictGet (dictDel l k) k = none := by
  rw [dictGet_eq_none_iff, keys_dictDel]
  exact h.not_mem_erase

lemma keys_dictSet_mem {α : Type} (l : List (Nat × α)) (k : Nat) (v : α)
    (h : k ∈ l.map Prod.fst) : (dictSet l k v).map Prod.fst = l.map Prod.fst := by
  induction l with
  | nil => simp at h
  | cons hd tl ih =>
    obtain ⟨k1, v1⟩ := hd
    rw [dictSet]
    by_cases h1 : k1 = k
    · rw [if_pos h1]
      simp [h1]
    · rw [if_neg h1]
      simp only [List.map_cons, List.cons.injEq, true_and]
      apply ih
      simp only [List.map_cons, List.mem_cons] at h
      rcases h with h | h
      · exact absurd h.symm h1
      · exact h

lemma keys_dictSet_not_mem {α : Type} (l : List (Nat × α)) (k : Nat) (v : α)
    (h : k ∉ l.map Prod.fst) : (dictSet l k v).map Prod.fst = l.map Prod.fst ++ [k] := by
  induction l with
  | nil => simp [dictSet]
  | cons hd tl ih =>
    obtain ⟨k1, v1⟩ := hd
    simp only [List.map_cons, List.mem_cons, not_or] at h
    rw [dictSet, if_neg (fun he => h.1 he.symm)]
    simp only [List.map_cons, List.cons_append, List.cons.injEq, true_and]
    exact ih h.2

lemma mem_keys_dictSet {α : Type} (l : List (Nat × α)) (k k0 : Nat) (v : α)
    (h : k0 ∈ (dictSet l k v).map Prod.fst) : k0 ∈ l.map Prod.fst ∨ k0 = k := by
  by_cases hm : k ∈ l.map Prod.fst
  · rw [keys_dictSet_mem l k v hm] at h
    exact Or.inl h
  · rw [keys_dictSet_not_mem l k v hm] at h
    rcases List.mem_append.mp h with h | h
    · exact Or.inl h
    · exact Or.inr (by simpa using h)

lemma mem_keys_dictSet_of_mem {α : Type} (l : List (Nat × α)) (k k0 : Nat) (v : α)
    (h : k0 ∈ l.map Prod.fst) : k0 ∈ (dictSet l k v).map Prod.fst := by
  by_cases hm : k ∈ l.map Prod.fst
  · rw [keys_dictSet_mem l k v hm]; exact h
  · rw [keys_dictSet_not_mem l k v hm]; exact List.mem_append_left _ h

lemma self_mem_keys_dictSet {α : Type} (l : List (Nat × α)) (k : Nat) (v : α) :
    k ∈ (dictSet l k v).map Prod.fst := by
  by_cases hm : k ∈ l.map Prod.fst
  · rw [keys_dictSet_mem l k v hm]; exact hm
  · rw [keys_dictSet_not_mem l k v hm]; simp

lemma nodup_keys_dictSet {α : Type} (l : List (Nat × α)) (k : Nat) (v : α)
    (h : (l.map Prod.fst).Nodup) : ((dictSet l k v).map Prod.fst).Nodup := by
  by_cases hm : k ∈ l.map Prod.fst
  · rw [keys_dictSet_mem l k v hm]; exact h
  · rw [keys_dictSet_not_mem l k v hm]
    simp [List.nodup_append, h, hm]

lemma nodup_keys_dictDel {α : Type} (l : List (Nat × α)) (k : Nat)
    (h : (l.map Prod.fst).Nodup) : ((dictDel l k).map Prod.fst).Nodup := by
  rw [keys_dictDel]
  exact h.erase k

lemma dictDel_dictSet {α : Type} (l : List (Nat × α)) (k : Nat) (v : α) :
    dictDel (dictSet l k v) k = dictDel l k := by
  induction l with
  | nil => simp [dictSet, dictDel]
  | cons hd tl ih =>
    obtain ⟨k1, v1⟩ := hd
    rw [dictSet]
    by_cases h : k1 = k
    · rw [if_pos h, dictDel, if_pos rfl, dictDel, if_pos h]
    · rw [if_neg h, dictDel, if_neg h, dictDel, if_neg h, ih]

/-! ### Characterisation of the disappearance loop -/

lemma inc_step_eq (s : CentroidTracker) (k : Nat) :
    inc_step s k =
      if (dictGet s.disappeared k).getD 0 + 1 > s.max_disappeared then
        { s with objects := dictDel s.objects k,
                 disappeared := dictDel s.disappeared k }
      else { s with disappeared := dictSet s.disappeared k ((dictGet s.disappeared k).getD 0 + 1) } := by
  unfold inc_step deregister
  simp only [dictGet_dictSet_self, Option.getD_some, dictDel_dictSet]

lemma foldl_inc_run (R : List Nat) :
    ∀ (s : CentroidTracker),
    s.objects.map Prod.fst = s.disappeared.map Prod.fst →
    (s.objects.map Prod.fst).Nodup →
    R.Nodup →
    (∀ k ∈ R, k ∈ s.objects.map Prod.fst) →
    ((R.foldl inc_step s).objects.map Prod.fst
        = (s.objects.map Prod.fst).filter
            (fun k => decide (k ∉ R)
              || decide ((dictGet s.disappeared k).getD 0 + 1 ≤ s.max_disappeared))
     ∧ (R.foldl inc_step s).objects.map Prod.fst
        = (R.foldl inc_step s).disappeared.map Prod.fst
     ∧ ((R.foldl inc_step s).objects.map Prod.fst).Nodup
     ∧ (R.foldl inc_step s).next_id = s.next_id
     ∧ (R.foldl inc_step s).max_disappeared = s.max_disappeared
     ∧ (R.foldl inc_step s).max_distance = s.max_distance
     ∧ ∀ k0, (dictGet (R.foldl inc_step s).disappeared k0
          = if k0 ∈ R then
              (if (dictGet s.disappeared k0).getD 0 + 1 ≤ s.max_disappeared
               then some ((dictGet s.disappeared k0).getD 0 + 1) else none)
            else dictGet s.disappeared k0)
        ∧ (dictGet (R.foldl inc_step s).objects k0
          = if k0 ∈ R ∧ ¬ ((dictGet s.disappeared k0).getD 0 + 1 ≤ s.max_disappeared)
            then none else dictGet s.objects k0)) := by
  induction R with
  | nil =>
    intro s halign hnd _ _
    refine ⟨?_, halign, hnd, rfl, rfl, rfl, ?_⟩
    · simp
    · intro k0
      simp
  | cons k tl ih =>
    intro s halign hnd hRnd hsub
    have hks : k ∈ s.objects.map Prod.fst := hsub k (List.mem_cons_self k tl)
    have hkd : k ∈ s.disappeared.map Prod.fst := halign ▸ hks
    have hknotl : k ∉ tl := (List.nodup_cons.mp hRnd).1
    have htlnd : tl.Nodup := (List.nodup_cons.mp hRnd).2
    rw [List.foldl_cons]
    by_cases hkeep : (dictGet s.disappeared k).getD 0 + 1 ≤ s.max_disappeared
    · -- the identity survives this step
      have hstep : inc_step s k
          = { s with disappeared :=
                dictSet s.disappeared k ((dictGet s.disappeared k).getD 0 + 1) } := by
        rw [inc_step_eq, if_neg (by omega)]
      rw [hstep]
      set s1 : CentroidTracker :=
        { s with disappeared := dictSet s.disappeared k ((dictGet s.disappeared k).getD 0 + 1) }
        with hs1
      have hobj1 : s1.objects = s.objects := by rw [hs1]
      have hmax1 : s1.max_disappeared = s.max_disappeared := by rw [hs1]
      have halign1 : s1.objects.map Prod.fst = s1.disappeared.map Prod.fst := by
        rw [hs1]
        simp only [keys_dictSet_mem s.disappeared k _ hkd]
        exact halign
      have hnd1 : (s1.objects.map Prod.fst).Nodup := by rw [hobj1]; exact hnd
      have hsub1 : ∀ j ∈ tl, j ∈ s1.objects.map Prod.fst := by
        intro j hj
        rw [hobj1]
        exact hsub j (List.mem_cons_of_mem k hj)
      obtain ⟨ih1, ih2, ih3, ih4, ih5, ih6, ih7⟩ := ih s1 halign1 hnd1 htlnd hsub1
      refine ⟨?_, ih2, ih3, by rw [ih4, hs1], by rw [ih5, hs1], by rw [ih6, hs1], ?_⟩
      · rw [ih1, hobj1]
        apply List.filter_congr
        intro x hx
        by_cases hxk : x = k
        · subst hxk
          have hgetx : dictGet s1.disappeared x = some ((dictGet s.disappeared x).getD 0 + 1) := by
            rw [hs1]; exact dictGet_dictSet_self _ _ _
          simp [hknotl, hkeep, hgetx, hmax1]
        · have hgetx : dictGet s1.disappeared x = dictGet s.disappeared x := by
            rw [hs1]; exact dictGet_dictSet_ne _ _ _ _ hxk
          by_cases hxtl : x ∈ tl <;>
            by_cases hc : (dictGet s.disappeared x).getD 0 + 1 ≤ s.max_disappeared <;>
              simp [hgetx, hmax1, hxk, hxtl, hc, List.mem_cons]
      · intro k0
        obtain ⟨ihd, iho⟩ := ih7 k0
        by_cases hk0 : k0 = k
        · rw [hk0] at ihd iho ⊢
          have hdd : dictGet s1.disappeared k = some ((dictGet s.disappeared k).getD 0 + 1) := by
            rw [hs1]; exact dictGet_dictSet_self _ _ _
          constructor
          · rw [ihd, if_neg hknotl, hdd, if_pos (List.mem_cons_self k tl), if_pos hkeep]
          · rw [iho, if_neg (by rintro ⟨h1, _⟩; exact hknotl h1),
              if_neg (by rintro ⟨_, h2⟩; exact h2 hkeep), hobj1]
        · have hgetd : dictGet s1.disappeared k0 = dictGet s.disappeared k0 := by
            rw [hs1]; exact dictGet_dictSet_ne _ _ _ _ hk0
          have hgeto : dictGet s1.objects k0 = dictGet s.objects k0 := by rw [hobj1]
          have hmem : (k0 ∈ k :: tl) ↔ (k0 ∈ tl) := by
            simp [List.mem_cons, hk0]
          constructor
          · rw [ihd, hgetd, hmax1]
            by_cases hm : k0 ∈ tl
            · rw [if_pos hm, if_pos (hmem.mpr hm)]
            · rw [if_neg hm, if_neg (fun hc => hm (hmem.mp hc))]
          · rw [iho, hgetd, hgeto, hmax1]
            by_cases hm : k0 ∈ tl ∧ ¬ ((dictGet s.disappeared k0).getD 0 + 1 ≤ s.max_disappeared)
            · rw [if_pos hm, if_pos ⟨hmem.mpr hm.1, hm.2⟩]
            · rw [if_neg hm,
                if_neg (by rintro ⟨h1, h2⟩; exact hm ⟨hmem.mp h1, h2⟩)]
    · -- the identity is deregistered at this step
      have hstep : inc_step s k
          = { s with objects := dictDel s.objects k,
                     disappeared := dictDel s.disappeared k } := by
        rw [inc_step_eq, if_pos (by omega)]
      rw [hstep]
      set s1 : CentroidTracker :=
        { s with objects := dictDel s.objects k, disappeared := dictDel s.disappeared k }
        with hs1
      have hkeys1 : s1.objects.map Prod.fst = (s.objects.map Prod.fst).erase k := by
        rw [hs1]; exact keys_dictDel _ _
      have hmax1 : s1.max_disappeared = s.max_disappeared := by rw [hs1]
      have halign1 : s1.objects.map Prod.fst = s1.disappeared.map Prod.fst := by
        rw [hs1]
        simp only [keys_dictDel]
        rw [halign]
      have hnd1 : (s1.objects.map Prod.fst).Nodup := by
        rw [hkeys1]; exact hnd.erase k
      have hsub1 : ∀ j ∈ tl, j ∈ s1.objects.map Prod.fst := by
        intro j hj
        rw [hkeys1]
        exact (List.mem_erase_of_ne (by rintro rfl; exact hknotl hj)).mpr
          (hsub j (List.mem_cons_of_mem k hj))
      obtain ⟨ih1, ih2, ih3, ih4, ih5, ih6, ih7⟩ := ih s1 halign1 hnd1 htlnd hsub1
      have hnds : (s.disappeared.map Prod.fst).Nodup := halign ▸ hnd
      refine ⟨?_, ih2, ih3, by rw [ih4, hs1], by rw [ih5, hs1], by rw [ih6, hs1], ?_⟩
      · rw [ih1, hkeys1, hnd.erase_eq_filter k, List.filter_filter]
        apply List.filter_congr
        intro x hx
        by_cases hxk : x = k
        · subst hxk
          simp [hkeep, List.mem_cons]
        · have hgetx : dictGet s1.disappeared x = dictGet s.disappeared x := by
            rw [hs1]; exact dictGet_dictDel_ne _ _ _ hxk
          by_cases hxtl : x ∈ tl <;>
            by_cases hc : (dictGet s.disappeared x).getD 0 + 1 ≤ s.max_disappeared <;>
              simp [hgetx, hmax1, hxk, hxtl, hc, List.mem_cons]
      · intro k0
        obtain ⟨ihd, iho⟩ := ih7 k0
        by_cases hk0 : k0 = k
        · rw [hk0] at ihd iho ⊢
          have hdd : dictGet s1.disappeared k = none := by
            rw [hs1]; exact dictGet_dictDel_self _ _ hnds
          have hoo : dictGet s1.objects k = none := by
            rw [hs1]; exact dictGet_dictDel_self _ _ hnd
          constructor
          · rw [ihd, if_neg hknotl, hdd, if_pos (List.mem_cons_self k tl), if_neg hkeep]
          · rw [iho, if_neg (by rintro ⟨h1, _⟩; exact hknotl h1), hoo,
              if_pos ⟨List.mem_cons_self k tl, hkeep⟩]
        · have hgetd : dictGet s1.disappeared k0 = dictGet s.disappeared k0 := by
            rw [hs1]; exact dictGet_dictDel_ne _ _ _ hk0
          have hgeto : dictGet s1.objects k0 = dictGet s.objects k0 := by
            rw [hs1]; exact dictGet_dictDel_ne _ _ _ hk0
          have hmem : (k0 ∈ k :: tl) ↔ (k0 ∈ tl) := by
            simp [List.mem_cons, hk0]
          constructor
          · rw [ihd, hgetd, hmax1]
            by_cases hm : k0 ∈ tl
            · rw [if_pos hm, if_pos (hmem.mpr hm)]
            · rw [if_neg hm, if_neg (fun hc => hm (hmem.mp hc))]
          · rw [iho, hgetd, hgeto, hmax1]
            by_cases hm : k0 ∈ tl ∧ ¬ ((dictGet s.disappeared k0).getD 0 + 1 ≤ s.max_disappeared)
            · rw [if_pos hm, if_pos ⟨hmem.mpr hm.1, hm.2⟩]
            · rw [if_neg hm,
                if_neg (by rintro ⟨h1, h2⟩; exact hm ⟨hmem.mp h1, h2⟩)]

/-! ### Rewriting the skip-loops as folds over the touched elements -/

lemma foldl_if_skip {σ : Type} (f : σ → Nat → σ) (p : Nat → Prop) [DecidablePred p] :
    ∀ (l : List Nat) (s : σ),
      l.foldl (fun s x => if p x then s else f s x) s
        = (l.filter (fun x => decide (¬ p x))).foldl f s := by
  intro l
  induction l with
  | nil => intro s; rfl
  | cons x tl ih =>
    intro s
    rw [List.foldl_cons, List.filter_cons]
    by_cases hp : p x
    · rw [if_pos hp, if_neg (by simp [hp])]
      exact ih s
    · rw [if_neg hp, if_pos (by simp [hp]), List.foldl_cons]
      exact ih (f s x)

lemma update_unmatched_rows_eq (object_ids used_rows : List Nat) (s : CentroidTracker) :
    update_unmatched_rows object_ids used_rows s
      = ((((List.range object_ids.length).filter (fun r => decide (¬ r ∈ used_rows))).map
            (fun r => object_ids.getD r 0)).foldl inc_step s) := by
  unfold update_unmatched_rows
  rw [foldl_if_skip (fun s row => inc_step s (object_ids.getD row 0)) (fun row => row ∈ used_rows)]
  rw [List.foldl_map]

lemma register_unmatched_cols_eq (input_centroids : List (Int × Int)) (used_cols : List Nat)
    (s : CentroidTracker) :
    register_unmatched_cols input_centroids used_cols s
      = ((((List.range input_centroids.length).filter (fun c => decide (¬ c ∈ used_cols))).map
            (fun c => input_centroids.getD c (0, 0))).foldl register s) := by
  unfold register_unmatched_cols
  rw [foldl_if_skip (fun s col => register s (input_centroids.getD col (0, 0)))
    (fun col => col ∈ used_cols)]
  rw [List.foldl_map]

lemma touched_keys_nodup (oids : List Nat) (hnd : oids.Nodup) (ur : List Nat) :
    ((((List.range oids.length).filter (fun r => decide (¬ r ∈ ur)))).map
        (fun r => oids.getD r 0)).Nodup := by
  apply List.Nodup.map_on _ ((List.nodup_range oids.length).filter _)
  intro x hx y hy hxy
  have hxr : x < oids.length := List.mem_range.mp (List.mem_of_mem_filter hx)
  have hyr : y < oids.length := List.mem_range.mp (List.mem_of_mem_filter hy)
  rw [List.getD_eq_getElem oids 0 hxr, List.getD_eq_getElem oids 0 hyr] at hxy
  exact (hnd.getElem_inj_iff).mp hxy

lemma touched_keys_sub (oids : List Nat) (ur : List Nat) :
    ∀ x ∈ (((List.range oids.length).filter (fun r => decide (¬ r ∈ ur)))).map
        (fun r => oids.getD r 0), x ∈ oids := by
  intro x hx
  obtain ⟨r, hr, rfl⟩ := List.mem_map.mp hx
  have hrl : r < oids.length := List.mem_range.mp (List.mem_of_mem_filter hr)
  rw [List.getD_eq_getElem oids 0 hrl]
  exact List.getElem_mem hrl

/-! ### Facts about the greedy loop output -/

lemma greedy_loop_asg_keys (oids : List Nat) (ics : List (Int × Int))
    (D : Nat × Nat → Int) (maxd : Nat) :
    ∀ (l : List (Nat × Nat)) (ur uc : List Nat) (asg : List (Nat × (Int × Int))),
      (∀ p ∈ l, p.1 < oids.length) →
      (∀ x ∈ asg.map Prod.fst, x ∈ oids) →
      ∀ x ∈ (greedy_loop oids ics D maxd l ur uc asg).2.2.map Prod.fst, x ∈ oids := by
  intro l
  induction l with
  | nil => intro ur uc asg _ hasg; exact hasg
  | cons hd rest ih =>
    intro ur uc asg hl hasg
    obtain ⟨row, col⟩ := hd
    have hrow : row < oids.length := hl (row, col) (List.mem_cons_self _ _)
    have hrest : ∀ p ∈ rest, p.1 < oids.length :=
      fun p hp => hl p (List.mem_cons_of_mem _ hp)
    rw [greedy_loop]
    by_cases hconf : row ∈ ur ∨ col ∈ uc
    · rw [if_pos hconf]
      exact ih ur uc asg hrest hasg
    · rw [if_neg hconf]
      by_cases hd2 : D (row, col) > (maxd : Int) ^ 2
      · rw [if_pos hd2]
        exact hasg
      · rw [if_neg hd2]
        apply ih _ _ _ hrest
        intro x hx
        rcases mem_keys_dictSet _ _ _ _ hx with hx | hx
        · exact hasg x hx
        · rw [hx, List.getD_eq_getElem oids 0 hrow]
          exact List.getElem_mem hrow

lemma greedy_loop_ur_assigned (oids : List Nat) (ics : List (Int × Int))
    (D : Nat × Nat → Int) (maxd : Nat) :
    ∀ (l : List (Nat × Nat)) (ur uc : List Nat) (asg : List (Nat × (Int × Int))),
      (∀ r ∈ ur, oids.getD r 0 ∈ asg.map Prod.fst) →
      ∀ r ∈ (greedy_loop oids ics D maxd l ur uc asg).1,
        oids.getD r 0 ∈ (greedy_loop oids ics D maxd l ur uc asg).2.2.map Prod.fst := by
  intro l
  induction l with
  | nil => intro ur uc asg hinv; exact hinv
  | cons hd rest ih =>
    intro ur uc asg hinv
    obtain ⟨row, col⟩ := hd
    rw [greedy_loop]
    by_cases hconf : row ∈ ur ∨ col ∈ uc
    · rw [if_pos hconf]
      exact ih ur uc asg hinv
    · rw [if_neg hconf]
      by_cases hd2 : D (row, col) > (maxd : Int) ^ 2
      · rw [if_pos hd2]
        exact hinv
      · rw [if_neg hd2]
        apply ih
        intro r hr
        rcases List.mem_append.mp hr with hr | hr
        · exact mem_keys_dictSet_of_mem _ _ _ _ (hinv r hr)
        · have : r = row := by simpa using hr
          rw [this]
          exact self_mem_keys_dictSet _ _ _

/-! ### Phase 1 (matched updates) -/

lemma update_matched_facts :
    ∀ (asg : List (Nat × (Int × Int))) (s : CentroidTracker),
      (∀ x ∈ asg.map Prod.fst, x ∈ s.objects.map Prod.fst) →
      s.objects.map Prod.fst = s.disappeared.map Prod.fst →
      ((update_matched s asg).objects.map Prod.fst = s.objects.map Prod.fst
       ∧ (update_matched s asg).disappeared.map Prod.fst = s.disappeared.map Prod.fst
       ∧ (update_matched s asg).next_id = s.next_id
       ∧ (update_matched s asg).max_disappeared = s.max_disappeared
       ∧ (update_matched s asg).max_distance = s.max_distance) := by
  intro asg
  induction asg with
  | nil => intro s _ _; exact ⟨rfl, rfl, rfl, rfl, rfl⟩
  | cons hd tl ih =>
    intro s hsub halign
    obtain ⟨k, v⟩ := hd
    have hk : k ∈ s.objects.map Prod.fst := hsub k (by simp)
    have hkd : k ∈ s.disappeared.map Prod.fst := halign ▸ hk
    rw [update_matched, List.foldl_cons]
    set s1 : CentroidTracker :=
      { s with objects := dictSet s.objects k v, disappeared := dictSet s.disappeared k 0 }
      with hs1
    have hko : s1.objects.map Prod.fst = s.objects.map Prod.fst := by
      rw [hs1]; exact keys_dictSet_mem _ _ _ hk
    have hkdd : s1.disappeared.map Prod.fst = s.disappeared.map Prod.fst := by
      rw [hs1]; exact keys_dictSet_mem _ _ _ hkd
    have hsub1 : ∀ x ∈ tl.map Prod.fst, x ∈ s1.objects.map Prod.fst := by
      intro x hx
      rw [hko]
      exact hsub x (by simp [hx])
    have halign1 : s1.objects.map Prod.fst = s1.disappeared.map Prod.fst := by
      rw [hko, hkdd]; exact halign
    obtain ⟨ih1, ih2, ih3, ih4, ih5⟩ := ih s1 hsub1 halign1
    have hrest : (update_matched s1 tl) = List.foldl
        (fun s p => { s with objects := dictSet s.objects p.1 p.2,
                             disappeared := dictSet s.disappeared p.1 0 }) s1 tl := rfl
    rw [← hrest]
    exact ⟨by rw [ih1, hko], by rw [ih2, hkdd], by rw [ih3, hs1], by rw [ih4, hs1],
      by rw [ih5, hs1]⟩

lemma update_matched_get_ne :
    ∀ (asg : List (Nat × (Int × Int))) (s : CentroidTracker) (k0 : Nat),
      k0 ∉ asg.map Prod.fst →
      dictGet (update_matched s asg).objects k0 = dictGet s.objects k0
      ∧ dictGet (update_matched s asg).disappeared k0 = dictGet s.disappeared k0 := by
  intro asg
  induction asg with
  | nil => intro s k0 _; exact ⟨rfl, rfl⟩
  | cons hd tl ih =>
    intro s k0 hk0
    obtain ⟨k, v⟩ := hd
    have hne : k0 ≠ k := by
      intro h
      exact hk0 (by simp [h])
    have htl : k0 ∉ tl.map Prod.fst := by
      intro h
      exact hk0 (by simp [h])
    rw [update_matched, List.foldl_cons]
    set s1 : CentroidTracker :=
      { s with objects := dictSet s.objects k v, disappeared := dictSet s.disappeared k 0 }
      with hs1
    obtain ⟨ih1, ih2⟩ := ih s1 k0 htl
    rw [update_matched] at ih1 ih2
    refine ⟨?_, ?_⟩
    · rw [ih1, hs1]
      exact dictGet_dictSet_ne _ _ _ _ hne
    · rw [ih2, hs1]
      exact dictGet_dictSet_ne _ _ _ _ hne

/-! ### Phase 3 (registration of unmatched incoming centroids) -/

lemma foldl_register_run :
    ∀ (cs : List (Int × Int)) (s : CentroidTracker),
      (∀ x ∈ s.objects.map Prod.fst, x < s.next_id) →
      s.objects.map Prod.fst = s.disappeared.map Prod.fst →
      ((cs.foldl register s).objects.map Prod.fst
          = s.objects.map Prod.fst ++ List.range' s.next_id cs.length
       ∧ (cs.foldl register s).objects.map Prod.fst
          = (cs.foldl register s).disappeared.map Prod.fst
       ∧ (cs.foldl register s).next_id = s.next_id + cs.length
       ∧ (cs.foldl register s).max_disappeared = s.max_disappeared
       ∧ (cs.foldl register s).max_distance = s.max_distance
       ∧ (∀ k0, k0 < s.next_id →
            dictGet (cs.foldl register s).objects k0 = dictGet s.objects k0
            ∧ dictGet (cs.foldl register s).disappeared k0 = dictGet s.disappeared k0)) := by
  intro cs
  induction cs with
  | nil =>
    intro s _ halign
    refine ⟨by simp, halign, by simp, rfl, rfl, ?_⟩
    intro k0 _
    exact ⟨rfl, rfl⟩
  | cons c tl ih =>
    intro s hb halign
    rw [List.foldl_cons]
    have hfresh : s.next_id ∉ s.objects.map Prod.fst := fun h => absurd (hb _ h) (by omega)
    have hfreshd : s.next_id ∉ s.disappeared.map Prod.fst := halign ▸ hfresh
    set s1 : CentroidTracker := register s c with hs1
    have hko : s1.objects.map Prod.fst = s.objects.map Prod.fst ++ [s.next_id] := by
      rw [hs1]; unfold register
      exact keys_dictSet_not_mem _ _ _ hfresh
    have hkd : s1.disappeared.map Prod.fst = s.disappeared.map Prod.fst ++ [s.next_id] := by
      rw [hs1]; unfold register
      exact keys_dictSet_not_mem _ _ _ hfreshd
    have hnext1 : s1.next_id = s.next_id + 1 := by rw [hs1]; rfl
    have hb1 : ∀ x ∈ s1.objects.map Prod.fst, x < s1.next_id := by
      intro x hx
      rw [hko] at hx
      rw [hnext1]
      rcases List.mem_append.mp hx with hx | hx
      · have := hb x hx; omega
      · have : x = s.next_id := by simpa using hx
        omega
    have halign1 : s1.objects.map Prod.fst = s1.disappeared.map Prod.fst := by
      rw [hko, hkd, halign]
    obtain ⟨ih1, ih2, ih3, ih4, ih5, ih6⟩ := ih s1 hb1 halign1
    refine ⟨?_, ih2, ?_, by rw [ih4, hs1]; rfl, by rw [ih5, hs1]; rfl, ?_⟩
    · rw [ih1, hko, hnext1, List.length_cons, List.append_assoc, List.range'_succ]
      rfl
    · rw [ih3, hnext1, List.length_cons]
      omega
    · intro k0 hk0
      have hk01 : k0 < s1.next_id := by omega
      have hne : k0 ≠ s.next_id := by omega
      obtain ⟨g1, g2⟩ := ih6 k0 hk01
      refine ⟨?_, ?_⟩
      · rw [g1, hs1]
        unfold register
        exact dictGet_dictSet_ne _ _ _ _ hne
      · rw [g2, hs1]
        unfold register
        exact dictGet_dictSet_ne _ _ _ _ hne

/-! ### The tracker invariant and the shape of every update -/

/-- Invariant of the tracker state: both maps share the same insertion-ordered
key list, keys are unique, and every key is below the id counter. -/
def tracker_inv (st : CentroidTracker) : Prop :=
  st.objects.map Prod.fst = st.disappeared.map Prod.fst
  ∧ (st.objects.map Prod.fst).Nodup
  ∧ ∀ k ∈ st.objects.map Prod.fst, k < st.next_id

instance (st : CentroidTracker) : Decidable (tracker_inv st) := by
  unfold tracker_inv
  infer_instance

lemma tracker_update_run (argsort : ArgSort) (hadm : argsort_admissible argsort)
    (st : CentroidTracker) (detections : List Detection)
    (h : tracker_inv st) :
    ∃ kept m,
      (st.update argsort detections).objects.map Prod.fst = kept ++ List.range' st.next_id m
      ∧ kept.Sublist (st.objects.map Prod.fst)
      ∧ (st.update argsort detections).next_id = st.next_id + m
      ∧ tracker_inv (st.update argsort detections)
      ∧ (st.update argsort detections).max_disappeared = st.max_disappeared
      ∧ (st.update argsort detections).max_distance = st.max_distance := by
  obtain ⟨halign, hnd, hbound⟩ := h
  by_cases hic : (detections.map (fun d => d.center)).length = 0
  · -- no detections: the disappearance loop
    have hupd : st.update argsort detections
        = (st.disappeared.map Prod.fst).foldl inc_step st := by
      simp only [CentroidTracker.update, if_pos hic]
    have hRnd : (st.disappeared.map Prod.fst).Nodup := halign ▸ hnd
    have hRsub : ∀ k ∈ st.disappeared.map Prod.fst, k ∈ st.objects.map Prod.fst := by
      intro k hk; exact halign ▸ hk
    obtain ⟨h1, h2, h3, h4, h5, h6, _⟩ :=
      foldl_inc_run (st.disappeared.map Prod.fst) st halign hnd hRnd hRsub
    rw [hupd]
    refine ⟨(st.objects.map Prod.fst).filter
        (fun k => decide (k ∉ st.disappeared.map Prod.fst)
          || decide ((dictGet st.disappeared k).getD 0 + 1 ≤ st.max_disappeared)), 0,
      ?_, List.filter_sublist _, by rw [h4]; omega, ⟨h2, h3, ?_⟩, h5, h6⟩
    · rw [h1]
      simp
    · intro k hk
      rw [h4]
      exact hbound k ((List.filter_sublist _).subset (h1 ▸ hk))
  · by_cases hobj : st.objects.length = 0
    · -- no existing identities: register everything
      have hupd : st.update argsort detections
          = (detections.map (fun d => d.center)).foldl register st := by
        simp only [CentroidTracker.update, if_neg hic, if_pos hobj]
      have hobjnil : st.objects = [] := List.length_eq_zero.mp hobj
      obtain ⟨h1, h2, h3, h4, h5, _⟩ :=
        foldl_register_run (detections.map (fun d => d.center)) st hbound halign
      rw [hupd]
      refine ⟨st.objects.map Prod.fst, (detections.map (fun d => d.center)).length,
        h1, List.Sublist.refl _, h3, ⟨h2, ?_, ?_⟩, h4, h5⟩
      · rw [h1, hobjnil]
        simp only [List.map_nil, List.nil_append]
        exact List.nodup_range' _ _
      · intro k hk
        rw [h1, hobjnil] at hk
        simp only [List.map_nil, List.nil_append] at hk
        rw [List.mem_range'] at hk
        obtain ⟨i, hi, rfl⟩ := hk
        rw [h3]
        omega
    · -- the association path
      have hupd : st.update argsort detections
          = update_main st (detections.map (fun d => d.center))
              (associate st argsort (detections.map (fun d => d.center))) := by
        simp only [CentroidTracker.update, if_neg hic, if_neg hobj]
      set ics := detections.map (fun d => d.center) with hics
      set r := associate st argsort ics with hr
      have hasg_sub : ∀ x ∈ r.2.2.map Prod.fst, x ∈ st.objects.map Prod.fst := by
        rw [hr]
        unfold associate
        apply greedy_loop_asg_keys
        · intro p hp
          have hmem : p ∈ all_pairs (st.objects.map Prod.fst).length ics.length :=
            ((hadm _ _).1).subset hp
          simpa using (all_pairs_mem.mp hmem).1
        · intro x hx
          simp at hx
      obtain ⟨m1, m2, m3, m4, m5⟩ := update_matched_facts r.2.2 st hasg_sub halign
      set s1 := update_matched st r.2.2 with hs1
      -- phase 2
      have hphase2 : update_unmatched_rows (st.objects.map Prod.fst) r.1 s1
          = ((((List.range (st.objects.map Prod.fst).length).filter
                (fun row => decide (¬ row ∈ r.1))).map
                  (fun row => (st.objects.map Prod.fst).getD row 0)).foldl inc_step s1) :=
        update_unmatched_rows_eq _ _ _
      have hnd1 : (s1.objects.map Prod.fst).Nodup := by rw [m1]; exact hnd
      have halign1 : s1.objects.map Prod.fst = s1.disappeared.map Prod.fst := by
        rw [m1, m2]; exact halign
      have hKnd : ((((List.range (st.objects.map Prod.fst).length).filter
            (fun row => decide (¬ row ∈ r.1))).map
              (fun row => (st.objects.map Prod.fst).getD row 0))).Nodup :=
        touched_keys_nodup _ hnd _
      have hKsub : ∀ x ∈ (((List.range (st.objects.map Prod.fst).length).filter
            (fun row => decide (¬ row ∈ r.1))).map
              (fun row => (st.objects.map Prod.fst).getD row 0)),
          x ∈ s1.objects.map Prod.fst := by
        intro x hx
        rw [m1]
        exact touched_keys_sub _ _ x hx
      obtain ⟨p1, p2, p3, p4, p5, p6, _⟩ :=
        foldl_inc_run _ s1 halign1 hnd1 hKnd hKsub
      set s2 := update_unmatched_rows (st.objects.map Prod.fst) r.1 s1 with hs2
      -- phase 3
      have hphase3 : register_unmatched_cols ics r.2.1 s2
          = ((((List.range ics.length).filter (fun c => decide (¬ c ∈ r.2.1))).map
                (fun c => ics.getD c (0, 0))).foldl register s2) :=
        register_unmatched_cols_eq _ _ _
      have hb2 : ∀ x ∈ s2.objects.map Prod.fst, x < s2.next_id := by
        intro x hx
        rw [hphase2] at hx
        rw [hphase2, p4, m3]
        rw [p1] at hx
        have hxs : x ∈ s1.objects.map Prod.fst := (List.filter_sublist _).subset hx
        rw [m1] at hxs
        exact hbound x hxs
      have halign2 : s2.objects.map Prod.fst = s2.disappeared.map Prod.fst := by
        rw [hphase2]
        exact p2
      obtain ⟨q1, q2, q3, q4, q5, _⟩ := foldl_register_run _ s2 hb2 halign2
      have hfinal : st.update argsort detections = (((List.range ics.length).filter
            (fun c => decide (¬ c ∈ r.2.1))).map (fun c => ics.getD c (0, 0))).foldl register s2 := by
        rw [hupd]
        unfold update_main
        rw [← hs1, ← hs2, hphase3]
      have hnext2 : s2.next_id = st.next_id := by
        rw [hphase2, p4, m3]
      have hmax2 : s2.max_disappeared = st.max_disappeared := by
        rw [hphase2, p5, m4]
      have hmaxd2 : s2.max_distance = st.max_distance := by
        rw [hphase2, p6, m5]
      have hkeys2 : s2.objects.map Prod.fst
          = (s1.objects.map Prod.fst).filter
              (fun k => decide (¬ k ∈ (((List.range (st.objects.map Prod.fst).length).filter
                  (fun row => decide (¬ row ∈ r.1))).map
                    (fun row => (st.objects.map Prod.fst).getD row 0)))
                || decide ((dictGet s1.disappeared k).getD 0 + 1 ≤ s1.max_disappeared)) := by
        rw [hphase2]
        exact p1
      refine ⟨s2.objects.map Prod.fst,
        (((List.range ics.length).filter (fun c => decide (¬ c ∈ r.2.1))).map
          (fun c => ics.getD c (0, 0))).length, ?_, ?_, ?_, ⟨?_, ?_, ?_⟩, ?_, ?_⟩
      · rw [hfinal, q1, hnext2]
      · rw [hkeys2, m1]
        exact List.filter_sublist _
      · rw [hfinal, q3, hnext2]
      · rw [hfinal]
        exact q2
      · rw [hfinal, q1, hnext2]
        rw [List.nodup_append]
        refine ⟨by rw [hkeys2]; exact hnd1.filter _, List.nodup_range' _ _, ?_⟩
        intro a ha hb
        have ha2 : a < st.next_id := by
          have := hb2 a ha
          rw [hnext2] at this
          exact this
        rw [List.mem_range'] at hb
        obtain ⟨i, hi, rfl⟩ := hb
        omega
      · intro k hk
        rw [hfinal, q1, hnext2] at hk
        rw [hfinal, q3, hnext2]
        rcases List.mem_append.mp hk with hk | hk
        · have := hb2 k hk
          rw [hnext2] at this
          omega
        · rw [List.mem_range'] at hk
          obtain ⟨i, hi, rfl⟩ := hk
          omega
      · rw [hfinal, q4, hmax2]
      · rw [hfinal, q5, hmaxd2]

/-- C9: across any update, identity numbers are allocated strictly
increasing (the fresh ids form the consecutive run starting at the previous
counter value), the counter only grows, surviving keys are a subsequence of
the previous keys, and an id below the counter that is not currently tracked
is never tracked again — deregistered ids are never reissued. -/
theorem tracker_ids_monotone_fresh (argsort : ArgSort)
    (hadm : argsort_admissible argsort)
    (st : CentroidTracker) (detections : List Detection)
    (h : tracker_inv st) :
    ∃ kept m,
      (st.update argsort detections).objects.map Prod.fst = kept ++ List.range' st.next_id m
      ∧ kept.Sublist (st.objects.map Prod.fst)
      ∧ (st.update argsort detections).next_id = st.next_id + m
      ∧ (∀ k, k < st.next_id → k ∉ st.objects.map Prod.fst →
            k ∉ (st.update argsort detections).objects.map Prod.fst)
      ∧ tracker_inv (st.update argsort detections) := by
  obtain ⟨kept, m, h1, h2, h3, h4, _, _⟩ := tracker_update_run argsort hadm st detections h
  refine ⟨kept, m, h1, h2, h3, ?_, h4⟩
  intro k hk hknot hmem
  rw [h1] at hmem
  rcases List.mem_append.mp hmem with hm | hm
  · exact hknot (h2.subset hm)
  · rw [List.mem_range'] at hm
    obtain ⟨i, hi, rfl⟩ := hm
    omega

/-- Witness for C9 at a concrete tracker state and detection list with the
stable admissible argsort instance. -/
theorem tracker_ids_monotone_fresh_witness :
    argsort_admissible insertion_argsort
    ∧ tracker_inv ⟨4, [(1, ((0 : Int), (0 : Int))), (3, ((50 : Int), (0 : Int)))],
        [(1, 0), (3, 7)], 15, 100⟩
    ∧ ∃ kept m,
      ((⟨4, [(1, ((0 : Int), (0 : Int))), (3, ((50 : Int), (0 : Int)))],
          [(1, 0), (3, 7)], 15, 100⟩ : CentroidTracker).update insertion_argsort
            [⟨(2, 1), 3, 1/2, "contour"⟩, ⟨(400, 400), 2, 1/2, "hough"⟩]).objects.map Prod.fst
        = kept ++ List.range' 4 m
      ∧ kept.Sublist [1, 3]
      ∧ ((⟨4, [(1, ((0 : Int), (0 : Int))), (3, ((50 : Int), (0 : Int)))],
          [(1, 0), (3, 7)], 15, 100⟩ : CentroidTracker).update insertion_argsort
            [⟨(2, 1), 3, 1/2, "contour"⟩, ⟨(400, 400), 2, 1/2, "hough"⟩]).next_id = 4 + m
      ∧ (∀ k, k < 4 → k ∉ [1, 3] →
            k ∉ ((⟨4, [(1, ((0 : Int), (0 : Int))), (3, ((50 : Int), (0 : Int)))],
                [(1, 0), (3, 7)], 15, 100⟩ : CentroidTracker).update insertion_argsort
                  [⟨(2, 1), 3, 1/2, "contour"⟩, ⟨(400, 400), 2, 1/2, "hough"⟩]).objects.map Prod.fst)
      ∧ tracker_inv ((⟨4, [(1, ((0 : Int), (0 : Int))), (3, ((50 : Int), (0 : Int)))],
          [(1, 0), (3, 7)], 15, 100⟩ : CentroidTracker).update insertion_argsort
            [⟨(2, 1), 3, 1/2, "contour"⟩, ⟨(400, 400), 2, 1/2, "hough"⟩]) :=
  ⟨insertion_argsort_admissible, by decide,
   tracker_ids_monotone_fresh insertion_argsort insertion_argsort_admissible _ _ (by decide)⟩

/-! ### Disappearance threshold (claim C3) -/

/-- Does this update leave identity `k` unmatched: either there are no
detections at all, or the greedy association assigns no incoming centroid
to it. -/
def unmatched_in (argsort : ArgSort) (st : CentroidTracker)
    (detections : List Detection) (k : Nat) : Bool :=
  decide ((detections.map (fun d => d.center)).length = 0)
    || decide (k ∉ (associate st argsort (detections.map (fun d => d.center))).2.2.map Prod.fst)

/-- Folding a sequence of per-frame detection lists through `update`. -/
def run_updates (argsort : ArgSort) (st : CentroidTracker) :
    List (List Detection) → CentroidTracker
  | [] => st
  | d :: ds => run_updates argsort (st.update argsort d) ds

/-- Identity `k` is unmatched at every frame of the run. -/
def run_unmatched (argsort : ArgSort) (st : CentroidTracker) (k : Nat) :
    List (List Detection) → Bool
  | [] => true
  | d :: ds => unmatched_in argsort st d k && run_unmatched argsort (st.update argsort d) k ds

lemma update_step_unmatched (argsort : ArgSort) (hadm : argsort_admissible argsort)
    (st : CentroidTracker) (detections : List Detection)
    (k : Nat) (c : Nat)
    (hinv : tracker_inv st) (hk : k ∈ st.objects.map Prod.fst)
    (hc : dictGet st.disappeared k = some c)
    (hu : unmatched_in argsort st detections k = true) :
    ((c + 1 ≤ st.max_disappeared →
        dictGet (st.update argsort detections).objects k = dictGet st.objects k
        ∧ dictGet (st.update argsort detections).disappeared k = some (c + 1))
     ∧ (¬ c + 1 ≤ st.max_disappeared →
        dictGet (st.update argsort detections).objects k = none)) := by
  obtain ⟨halign, hnd, hbound⟩ := hinv
  by_cases hic : (detections.map (fun d => d.center)).length = 0
  · -- no detections: the plain disappearance loop
    have hupd : st.update argsort detections
        = (st.disappeared.map Prod.fst).foldl inc_step st := by
      simp only [CentroidTracker.update, if_pos hic]
    have hRnd : (st.disappeared.map Prod.fst).Nodup := halign ▸ hnd
    have hRsub : ∀ j ∈ st.disappeared.map Prod.fst, j ∈ st.objects.map Prod.fst := by
      intro j hj; exact halign ▸ hj
    obtain ⟨_, _, _, _, _, _, hget⟩ :=
      foldl_inc_run (st.disappeared.map Prod.fst) st halign hnd hRnd hRsub
    obtain ⟨hgd, hgo⟩ := hget k
    have hkR : k ∈ st.disappeared.map Prod.fst := halign ▸ hk
    rw [hc] at hgd hgo
    simp only [Option.getD_some] at hgd hgo
    constructor
    · intro hkeep
      rw [hupd]
      refine ⟨?_, ?_⟩
      · rw [hgo, if_neg (by rintro ⟨_, h2⟩; exact h2 hkeep)]
      · rw [hgd, if_pos hkR, if_pos hkeep]
    · intro hkill
      rw [hupd, hgo, if_pos ⟨hkR, hkill⟩]
  · -- association path: the identity is left unmatched by the greedy loop
    have hobj : ¬ st.objects.length = 0 := by
      intro h
      rw [List.length_eq_zero.mp h] at hk
      simp at hk
    have hupd : st.update argsort detections
        = update_main st (detections.map (fun d => d.center))
            (associate st argsort (detections.map (fun d => d.center))) := by
      simp only [CentroidTracker.update, if_neg hic, if_neg hobj]
    have hnasg : k ∉ (associate st argsort (detections.map (fun d => d.center))).2.2.map Prod.fst := by
      rcases Bool.or_eq_true _ _ |>.mp hu with h | h
      · exact absurd (of_decide_eq_true h) hic
      · exact of_decide_eq_true h
    set ics := detections.map (fun d => d.center) with hics
    set r := associate st argsort ics with hr
    have hasg_sub : ∀ x ∈ r.2.2.map Prod.fst, x ∈ st.objects.map Prod.fst := by
      rw [hr]
      unfold associate
      apply greedy_loop_asg_keys
      · intro p hp
        have hmem : p ∈ all_pairs (st.objects.map Prod.fst).length ics.length :=
          ((hadm _ _).1).subset hp
        simpa using (all_pairs_mem.mp hmem).1
      · intro x hx
        simp at hx
    obtain ⟨m1, m2, m3, m4, m5⟩ := update_matched_facts r.2.2 st hasg_sub halign
    obtain ⟨g1, g2⟩ := update_matched_get_ne r.2.2 st k hnasg
    set s1 := update_matched st r.2.2 with hs1
    have hphase2 : update_unmatched_rows (st.objects.map Prod.fst) r.1 s1
        = ((((List.range (st.objects.map Prod.fst).length).filter
              (fun row => decide (¬ row ∈ r.1))).map
                (fun row => (st.objects.map Prod.fst).getD row 0)).foldl inc_step s1) :=
      update_unmatched_rows_eq _ _ _
    have hnd1 : (s1.objects.map Prod.fst).Nodup := by rw [m1]; exact hnd
    have halign1 : s1.objects.map Prod.fst = s1.disappeared.map Prod.fst := by
      rw [m1, m2]; exact halign
    have hKnd : ((((List.range (st.objects.map Prod.fst).length).filter
          (fun row => decide (¬ row ∈ r.1))).map
            (fun row => (st.objects.map Prod.fst).getD row 0))).Nodup :=
      touched_keys_nodup _ hnd _
    have hKsub : ∀ x ∈ (((List.range (st.objects.map Prod.fst).length).filter
          (fun row => decide (¬ row ∈ r.1))).map
            (fun row => (st.objects.map Prod.fst).getD row 0)),
        x ∈ s1.objects.map Prod.fst := by
      intro x hx
      rw [m1]
      exact touched_keys_sub _ _ x hx
    obtain ⟨p1, p2, p3, p4, p5, p6, pget⟩ :=
      foldl_inc_run _ s1 halign1 hnd1 hKnd hKsub
    obtain ⟨pd, po⟩ := pget k
    -- the row of k is unmatched, so k is among the touched keys
    obtain ⟨row, hrow, hrowk⟩ := List.mem_iff_getElem.mp hk
    have hrownot : ¬ row ∈ r.1 := by
      intro hur
      apply hnasg
      have := greedy_loop_ur_assigned (st.objects.map Prod.fst) ics
        (dist_m (st.objects.map Prod.snd) ics) st.max_distance
        (argsort (dist_m (st.objects.map Prod.snd) ics)
          (all_pairs (st.objects.map Prod.fst).length ics.length)) [] [] []
        (by intro x hx; simp at hx) row (by rw [hr] at hur; exact hur)
      rw [List.getD_eq_getElem _ 0 hrow, hrowk] at this
      rw [hr]
      exact this
    have hkK : k ∈ (((List.range (st.objects.map Prod.fst).length).filter
          (fun row => decide (¬ row ∈ r.1))).map
            (fun row => (st.objects.map Prod.fst).getD row 0)) := by
      apply List.mem_map.mpr
      refine ⟨row, ?_, ?_⟩
      · apply List.mem_filter.mpr
        exact ⟨List.mem_range.mpr hrow, by simpa using hrownot⟩
      · rw [List.getD_eq_getElem _ 0 hrow, hrowk]
    have hd1 : dictGet s1.disappeared k = some c := by rw [hs1, g2, hc]
    have ho1 : dictGet s1.objects k = dictGet st.objects k := by rw [hs1, g1]
    rw [hd1] at pd po
    simp only [Option.getD_some] at pd po
    have hmax1 : s1.max_disappeared = st.max_disappeared := m4
    set s2 := update_unmatched_rows (st.objects.map Prod.fst) r.1 s1 with hs2
    -- phase 3 leaves every previously existing key untouched
    have hphase3 : register_unmatched_cols ics r.2.1 s2
        = ((((List.range ics.length).filter (fun c => decide (¬ c ∈ r.2.1))).map
              (fun c => ics.getD c (0, 0))).foldl register s2) :=
      register_unmatched_cols_eq _ _ _
    have hb2 : ∀ x ∈ s2.objects.map Prod.fst, x < s2.next_id := by
      intro x hx
      rw [hphase2] at hx
      rw [hphase2, p4, m3]
      rw [p1] at hx
      have hxs : x ∈ s1.objects.map Prod.fst := (List.filter_sublist _).subset hx
      rw [m1] at hxs
      exact hbound x hxs
    have halign2 : s2.objects.map Prod.fst = s2.disappeared.map Prod.fst := by
      rw [hphase2]
      exact p2
    obtain ⟨_, _, _, _, _, qget⟩ := foldl_register_run
      ((((List.range ics.length).filter (fun c => decide (¬ c ∈ r.2.1))).map
        (fun c => ics.getD c (0, 0)))) s2 hb2 halign2
    have hk2 : k < s2.next_id := by
      rw [hphase2, p4, m3]
      exact hbound k hk
    obtain ⟨qo, qd⟩ := qget k hk2
    have hfinal : st.update argsort detections = (((List.range ics.length).filter
          (fun c => decide (¬ c ∈ r.2.1))).map (fun c => ics.getD c (0, 0))).foldl register s2 := by
      rw [hupd]
      unfold update_main
      rw [← hs1, ← hs2, hphase3]
    constructor
    · intro hkeep
      have hkeep1 : k ∈ (((List.range (st.objects.map Prod.fst).length).filter
            (fun row => decide (¬ row ∈ r.1))).map
              (fun row => (st.objects.map Prod.fst).getD row 0))
          ∧ ¬ (c + 1 ≤ s1.max_disappeared) → False := by
        rintro ⟨_, h2⟩
        rw [hmax1] at h2
        exact h2 hkeep
      refine ⟨?_, ?_⟩
      · rw [hfinal, qo, hphase2, po, if_neg hkeep1, ho1]
      · rw [hfinal, qd, hphase2, pd, if_pos hkK, if_pos (by rw [hmax1]; exact hkeep)]
    · intro hkill
      rw [hfinal, qo, hphase2, po,
        if_pos ⟨hkK, by rw [hmax1]; exact hkill⟩]

lemma run_retain (argsort : ArgSort) (hadm : argsort_admissible argsort) (k : Nat) :
    ∀ (dss : List (List Detection)) (st : CentroidTracker) (c : Nat),
      tracker_inv st → k ∈ st.objects.map Prod.fst →
      dictGet st.disappeared k = some c →
      run_unmatched argsort st k dss = true →
      c + dss.length ≤ st.max_disappeared →
      (tracker_inv (run_updates argsort st dss)
       ∧ k ∈ (run_updates argsort st dss).objects.map Prod.fst
       ∧ dictGet (run_updates argsort st dss).disappeared k = some (c + dss.length)
       ∧ (run_updates argsort st dss).max_disappeared = st.max_disappeared) := by
  intro dss
  induction dss with
  | nil =>
    intro st c hinv hk hc _ _
    refine ⟨hinv, hk, ?_, rfl⟩
    rw [run_updates, hc]
    simp
  | cons d ds ih =>
    intro st c hinv hk hc hu hlen
    rw [run_unmatched, Bool.and_eq_true] at hu
    have hkeep : c + 1 ≤ st.max_disappeared := by
      rw [List.length_cons] at hlen
      omega
    obtain ⟨ho, hd⟩ := (update_step_unmatched argsort hadm st d k c hinv hk hc hu.1).1 hkeep
    obtain ⟨kept, m, _, _, _, hinv1, hmax1, _⟩ := tracker_update_run argsort hadm st d hinv
    have hk1 : k ∈ (st.update argsort d).objects.map Prod.fst := by
      rw [← dictGet_isSome_iff] at hk ⊢
      rw [ho]
      exact hk
    have hlen1 : (c + 1) + ds.length ≤ (st.update argsort d).max_disappeared := by
      rw [hmax1, List.length_cons] at *
      omega
    obtain ⟨r1, r2, r3, r4⟩ := ih (st.update argsort d) (c + 1) hinv1 hk1 hd hu.2 hlen1
    have harith : c + 1 + ds.length = c + (d :: ds).length := by
      rw [List.length_cons]
      omega
    refine ⟨r1, r2, ?_, ?_⟩
    · rw [run_updates, r3, harith]
    · rw [run_updates, r4, hmax1]

lemma run_dereg (argsort : ArgSort) (hadm : argsort_admissible argsort) (k : Nat) :
    ∀ (dss : List (List Detection)) (st : CentroidTracker) (c : Nat),
      tracker_inv st → k ∈ st.objects.map Prod.fst →
      dictGet st.disappeared k = some c →
      run_unmatched argsort st k dss = true →
      c + dss.length = st.max_disappeared + 1 →
      dss ≠ [] →
      dictGet (run_updates argsort st dss).objects k = none := by
  intro dss
  induction dss with
  | nil => intro st c _ _ _ _ _ hne; exact absurd rfl hne
  | cons d ds ih =>
    intro st c hinv hk hc hu hlen _
    rw [run_unmatched, Bool.and_eq_true] at hu
    cases ds with
    | nil =>
      have hkill : ¬ c + 1 ≤ st.max_disappeared := by
        simp only [List.length_cons, List.length_nil] at hlen
        omega
      have := (update_step_unmatched argsort hadm st d k c hinv hk hc hu.1).2 hkill
      rw [run_updates, run_updates]
      exact this
    | cons d2 ds2 =>
      have hkeep : c + 1 ≤ st.max_disappeared := by
        simp only [List.length_cons] at hlen
        omega
      obtain ⟨ho, hd⟩ := (update_step_unmatched argsort hadm st d k c hinv hk hc hu.1).1 hkeep
      obtain ⟨kept, m, _, _, _, hinv1, hmax1, _⟩ := tracker_update_run argsort hadm st d hinv
      have hk1 : k ∈ (st.update argsort d).objects.map Prod.fst := by
        rw [← dictGet_isSome_iff] at hk ⊢
        rw [ho]
        exact hk
      have hlen1 : (c + 1) + (d2 :: ds2).length = (st.update argsort d).max_disappeared + 1 := by
        rw [hmax1]
        simp only [List.length_cons] at *
        omega
      rw [run_updates]
      exact ih (st.update argsort d) (c + 1) hinv1 hk1 hd hu.2 hlen1 (by simp)

/-- C3: an identity whose disappearance count starts at 0 survives exactly
`max_disappeared` consecutive unmatched frames and is deregistered on the
`max_disappeared + 1`-th consecutive unmatched frame. -/
theorem tracker_disappearance_threshold (argsort : ArgSort)
    (hadm : argsort_admissible argsort) (st : CentroidTracker) (k : Nat)
    (dss : List (List Detection))
    (hinv : tracker_inv st) (hk : k ∈ st.objects.map Prod.fst)
    (h0 : dictGet st.disappeared k = some 0)
    (hu : run_unmatched argsort st k dss = true) :
    (dss.length = st.max_disappeared → k ∈ (run_updates argsort st dss).objects.map Prod.fst)
    ∧ (dss.length = st.max_disappeared + 1 →
        dictGet (run_updates argsort st dss).objects k = none) := by
  constructor
  · intro hlen
    exact (run_retain argsort hadm k dss st 0 hinv hk h0 hu (by omega)).2.1
  · intro hlen
    apply run_dereg argsort hadm k dss st 0 hinv hk h0 hu (by omega)
    intro hnil
    rw [hnil] at hlen
    simp at hlen

/-- Witness for C3 on a concrete tracker with disappearance threshold 2,
with the stable admissible argsort instance. -/
theorem tracker_disappearance_threshold_witness :
    (argsort_admissible insertion_argsort
     ∧ tracker_inv ⟨1, [(0, ((0 : Int), (0 : Int)))], [(0, 0)], 2, 100⟩
     ∧ 0 ∈ (run_updates insertion_argsort ⟨1, [(0, ((0 : Int), (0 : Int)))], [(0, 0)], 2, 100⟩
          (List.replicate 2 [])).objects.map Prod.fst
     ∧ dictGet (run_updates insertion_argsort ⟨1, [(0, ((0 : Int), (0 : Int)))], [(0, 0)], 2, 100⟩
          (List.replicate 3 [])).objects 0 = none) :=
  ⟨insertion_argsort_admissible, by decide,
   (tracker_disappearance_threshold insertion_argsort insertion_argsort_admissible
      _ 0 (List.replicate 2 [])
      (by decide) (by decide) (by decide) (by decide)).1 (by decide),
   (tracker_disappearance_threshold insertion_argsort insertion_argsort_admissible
      _ 0 (List.replicate 3 [])
      (by decide) (by decide) (by decide) (by decide)).2 (by decide)⟩

/-! ### Shot detection (shot_detector.py) -/

inductive ShotState where
  | IDLE
  | ABOVE_HOOP
  | IN_HOOP
  | SCORED
  | MISSED
deriving DecidableEq, Repr

/-- An immutable entry of the append-only shot log. -/
structure ShotLogEntry where
  frame : Int
  object_id : Nat
  result : String
  position : Int × Int
deriving DecidableEq, Repr

/-- State of `ShotDetector`: the hoop rectangle `(x, y, w, h)` (absence
disables shot detection), the per-identity state map defaulting to `IDLE`,
the two counters, the log and the single remembered last result. -/
structure ShotDetector where
  hoop_roi : Option (Int × Int × Int × Int)
  states : List (Nat × ShotState)
  shots_taken : Nat
  shots_made : Nat
  shot_log : List ShotLogEntry
  last_shot_result : Option (String × Int)
deriving DecidableEq, Repr

/-- Fresh detector as `__init__` builds it. -/
def ShotDetector.init (hoop_roi : Option (Int × Int × Int × Int)) : ShotDetector :=
  ⟨hoop_roi, [], 0, 0, [], none⟩

/-- `_enabled` is maintained as `hoop_roi is not None` at construction and in
`set_hoop_roi`, so it is modelled as this derived flag. -/
def ShotDetector.enabled (d : ShotDetector) : Bool := d.hoop_roi.isSome

/-- The observable per-identity state: the stored state, `IDLE` by default. -/
def ShotDetector.state_of (d : ShotDetector) (obj_id : Nat) : ShotState :=
  (dictGet d.states obj_id).getD ShotState.IDLE

/-- `_is_above_roi`: center x within the rectangle's x-range and center y
strictly above it. -/
def is_above_roi (roi : Int × Int × Int × Int) (center : Int × Int) : Prop :=
  roi.1 ≤ center.1 ∧ center.1 ≤ roi.1 + roi.2.2.1 ∧ center.2 < roi.2.1

instance (roi : Int × Int × Int × Int) (center : Int × Int) :
    Decidable (is_above_roi roi center) :=
  inferInstanceAs (Decidable (roi.1 ≤ center.1 ∧ center.1 ≤ roi.1 + roi.2.2.1 ∧ center.2 < roi.2.1))

/-- `_is_in_roi`: center inside the rectangle. -/
def is_in_roi (roi : Int × Int × Int × Int) (center : Int × Int) : Prop :=
  roi.1 ≤ center.1 ∧ center.1 ≤ roi.1 + roi.2.2.1
    ∧ roi.2.1 ≤ center.2 ∧ center.2 ≤ roi.2.1 + roi.2.2.2

instance (roi : Int × Int × Int × Int) (center : Int × Int) :
    Decidable (is_in_roi roi center) :=
  inferInstanceAs (Decidable (roi.1 ≤ center.1 ∧ center.1 ≤ roi.1 + roi.2.2.1
    ∧ roi.2.1 ≤ center.2 ∧ center.2 ≤ roi.2.1 + roi.2.2.2))

/-- `_is_below_roi`: center y strictly below the rectangle (x unconstrained). -/
def is_below_roi (roi : Int × Int × Int × Int) (center : Int × Int) : Prop :=
  center.2 > roi.2.1 + roi.2.2.2

instance (roi : Int × Int × Int × Int) (center : Int × Int) :
    Decidable (is_below_roi roi center) :=
  inferInstanceAs (Decidable (center.2 > roi.2.1 + roi.2.2.2))

/-- `_is_moving_down`: positive y-velocity in image coordinates. -/
def is_moving_down (velocity : Int × Int) : Prop := velocity.2 > 0

instance (velocity : Int × Int) : Decidable (is_moving_down velocity) :=
  inferInstanceAs (Decidable (velocity.2 > 0))

/-- The per-identity body of `ShotDetector.update`: the if/elif transition
chain on the identity's current state.  The source writes `SCORED` (or
`MISSED`) into the state map and immediately overwrites it with `IDLE`
within the same iteration; both writes are kept here. -/
def shot_step (roi : Int × Int × Int × Int) (velocity : Nat → Int × Int)
    (frame_number : Int) (d : ShotDetector) (obj : Nat × (Int × Int)) : ShotDetector :=
  let obj_id := obj.1
  let center := obj.2
  let v := velocity obj_id
  match (dictGet d.states obj_id).getD ShotState.IDLE with
  | ShotState.IDLE =>
    if is_above_roi roi center then
      { d with states := dictSet d.states obj_id ShotState.ABOVE_HOOP }
    else d
  | ShotState.ABOVE_HOOP =>
    if is_in_roi roi center ∧ is_moving_down v then
      { d with states := dictSet d.states obj_id ShotState.IN_HOOP }
    else if ¬ is_above_roi roi center ∧ ¬ is_in_roi roi center then
      { d with states := dictSet d.states obj_id ShotState.IDLE }
    else d
  | ShotState.IN_HOOP =>
    if is_below_roi roi center then
      { d with states := dictSet (dictSet d.states obj_id ShotState.SCORED) obj_id ShotState.IDLE,
               shots_taken := d.shots_taken + 1,
               shots_made := d.shots_made + 1,
               last_shot_result := some ("scored", frame_number),
               shot_log := d.shot_log ++ [⟨frame_number, obj_id, "scored", center⟩] }
    else if ¬ is_in_roi roi center then
      { d with states := dictSet (dictSet d.states obj_id ShotState.MISSED) obj_id ShotState.IDLE,
               shots_taken := d.shots_taken + 1,
               last_shot_result := some ("missed", frame_number),
               shot_log := d.shot_log ++ [⟨frame_number, obj_id, "missed", center⟩] }
    else d
  | ShotState.SCORED => d
  | ShotState.MISSED => d

/-- `ShotDetector.update`: no-op when disabled, otherwise the transition
body applied to every tracked identity in order; velocity is the reading
the trajectory analyzer reports for the identity. -/
def ShotDetector.update (d : ShotDetector) (tracked_objects : List (Nat × (Int × Int)))
    (velocity : Nat → Int × Int) (frame_number : Int) : ShotDetector :=
  match d.hoop_roi with
  | none => d
  | some roi => tracked_objects.foldl (shot_step roi velocity frame_number) d

/-- `ShotDetector.get_recent_shot_result`. -/
def ShotDetector.get_recent_shot_result (d : ShotDetector) (frame_number : Int)
    (flash_duration : Int) : Option (String × Int) :=
  match d.last_shot_result with
  | none => none
  | some r =>
    if frame_number - r.2 ≤ flash_duration then some (r.1, frame_number - r.2)
    else none

/-- One frame's worth of arguments to `ShotDetector.update`. -/
structure ShotUpdateCall where
  tracked_objects : List (Nat × (Int × Int))
  velocity : Nat → Int × Int
  frame_number : Int

/-- Folding a sequence of calls through `ShotDetector.update`. -/
def run_shot_updates (d : ShotDetector) : List ShotUpdateCall → ShotDetector
  | [] => d
  | c :: cs => run_shot_updates (d.update c.tracked_objects c.velocity c.frame_number) cs

/-! ### Dict lemmas for the state map -/

lemma dictSet_dictSet {α : Type} (l : List (Nat × α)) (k : Nat) (a b : α) :
    dictSet (dictSet l k a) k b = dictSet l k b := by
  induction l with
  | nil => simp [dictSet]
  | cons hd tl ih =>
    obtain ⟨k1, v1⟩ := hd
    rw [dictSet]
    by_cases h : k1 = k
    · rw [if_pos h, dictSet, if_pos rfl, dictSet, if_pos h]
    · rw [if_neg h, dictSet, if_neg h, dictSet, if_neg h, ih]

lemma mem_dictSet {α : Type} (l : List (Nat × α)) (k : Nat) (v : α) (p : Nat × α)
    (h : p ∈ dictSet l k v) : p ∈ l ∨ p = (k, v) := by
  induction l with
  | nil =>
    rw [dictSet] at h
    right
    simpa using h
  | cons hd tl ih =>
    obtain ⟨k1, v1⟩ := hd
    rw [dictSet] at h
    by_cases h1 : k1 = k
    · rw [if_pos h1] at h
      rcases List.mem_cons.mp h with h | h
      · right; exact h
      · left; exact List.mem_cons_of_mem _ h
    · rw [if_neg h1] at h
      rcases List.mem_cons.mp h with h | h
      · left; exact h ▸ List.mem_cons_self _ _
      · rcases ih h with h | h
        · left; exact List.mem_cons_of_mem _ h
        · right; exact h

lemma dictGet_mem {α : Type} (l : List (Nat × α)) (k : Nat) (v : α)
    (h : dictGet l k = some v) : (k, v) ∈ l := by
  induction l with
  | nil => simp [dictGet] at h
  | cons hd tl ih =>
    obtain ⟨k1, v1⟩ := hd
    rw [dictGet] at h
    by_cases h1 : k1 = k
    · rw [if_pos h1] at h
      simp only [Option.some.injEq] at h
      subst h1 h
      exact List.mem_cons_self _ _
    · rw [if_neg h1] at h
      exact List.mem_cons_of_mem _ (ih h)

/-! ### The persisted-state invariant (claim C6) -/

/-- Every stored per-identity state is one of the three persisted states. -/
def shot_states_good (d : ShotDetector) : Prop :=
  ∀ p ∈ d.states, p.2 = ShotState.IDLE ∨ p.2 = ShotState.ABOVE_HOOP ∨ p.2 = ShotState.IN_HOOP

lemma shot_states_good_dictSet (st : List (Nat × ShotState))
    (hgood : ∀ p ∈ st, p.2 = ShotState.IDLE ∨ p.2 = ShotState.ABOVE_HOOP ∨ p.2 = ShotState.IN_HOOP)
    (k : Nat) (v : ShotState)
    (hv : v = ShotState.IDLE ∨ v = ShotState.ABOVE_HOOP ∨ v = ShotState.IN_HOOP) :
    ∀ p ∈ dictSet st k v,
      p.2 = ShotState.IDLE ∨ p.2 = ShotState.ABOVE_HOOP ∨ p.2 = ShotState.IN_HOOP := by
  intro p hp
  rcases mem_dictSet st k v p hp with hp | hp
  · exact hgood p hp
  · rw [hp]
    exact hv

lemma shot_step_good (roi : Int × Int × Int × Int) (velocity : Nat → Int × Int)
    (frame_number : Int) (d : ShotDetector) (obj : Nat × (Int × Int))
    (hgood : shot_states_good d) :
    shot_states_good (shot_step roi velocity frame_number d obj) := by
  unfold shot_step
  dsimp only
  split
  · split
    · intro p hp
      exact shot_states_good_dictSet d.states hgood obj.1 _ (Or.inr (Or.inl rfl)) p hp
    · exact hgood
  · split
    · intro p hp
      exact shot_states_good_dictSet d.states hgood obj.1 _ (Or.inr (Or.inr rfl)) p hp
    · split
      · intro p hp
        exact shot_states_good_dictSet d.states hgood obj.1 _ (Or.inl rfl) p hp
      · exact hgood
  · split
    · intro p hp
      simp only [dictSet_dictSet] at hp
      exact shot_states_good_dictSet d.states hgood obj.1 _ (Or.inl rfl) p hp
    · split
      · intro p hp
        simp only [dictSet_dictSet] at hp
        exact shot_states_good_dictSet d.states hgood obj.1 _ (Or.inl rfl) p hp
      · exact hgood
  · exact hgood
  · exact hgood

lemma shot_fold_good (roi : Int × Int × Int × Int) (velocity : Nat → Int × Int)
    (frame_number : Int) :
    ∀ (tracked_objects : List (Nat × (Int × Int))) (d : ShotDetector),
      shot_states_good d →
      shot_states_good (tracked_objects.foldl (shot_step roi velocity frame_number) d) := by
  intro l
  induction l with
  | nil => intro d h; exact h
  | cons obj tl ih =>
    intro d h
    rw [List.foldl_cons]
    exact ih _ (shot_step_good roi velocity frame_number d obj h)

lemma shot_update_good (d : ShotDetector) (tracked_objects : List (Nat × (Int × Int)))
    (velocity : Nat → Int × Int) (frame_number : Int)
    (hgood : shot_states_good d) :
    shot_states_good (d.update tracked_objects velocity frame_number) := by
  unfold ShotDetector.update
  cases hroi : d.hoop_roi with
  | none => exact hgood
  | some roi => exact shot_fold_good roi velocity frame_number tracked_objects d hgood

/-- C6: starting from a fresh machine, after any sequence of update calls
the observable per-identity state is always one of IDLE, ABOVE_HOOP and
IN_HOOP — SCORED and MISSED never persist past the update call in which
they arise. -/
theorem shot_states_always_persisted (hoop_roi : Option (Int × Int × Int × Int))
    (calls : List ShotUpdateCall) (obj_id : Nat) :
    (run_shot_updates (ShotDetector.init hoop_roi) calls).state_of obj_id = ShotState.IDLE
    ∨ (run_shot_updates (ShotDetector.init hoop_roi) calls).state_of obj_id = ShotState.ABOVE_HOOP
    ∨ (run_shot_updates (ShotDetector.init hoop_roi) calls).state_of obj_id = ShotState.IN_HOOP := by
  have hrun : ∀ (cs : List ShotUpdateCall) (d : ShotDetector), shot_states_good d →
      shot_states_good (run_shot_updates d cs) := by
    intro cs
    induction cs with
    | nil => intro d h; exact h
    | cons c tl ih =>
      intro d h
      rw [run_shot_updates]
      exact ih _ (shot_update_good d c.tracked_objects c.velocity c.frame_number h)
  have hinit : shot_states_good (ShotDetector.init hoop_roi) := by
    intro p hp
    simp [ShotDetector.init] at hp
  have hgood := hrun calls (ShotDetector.init hoop_roi) hinit
  unfold ShotDetector.state_of
  cases hget : dictGet (run_shot_updates (ShotDetector.init hoop_roi) calls).states obj_id with
  | none => left; rfl
  | some s =>
    have := hgood (obj_id, s) (dictGet_mem _ _ _ hget)
    simpa using this

/-! ### The scored scenario (claim C7) -/

lemma shot_update_single (d : ShotDetector) (roi : Int × Int × Int × Int)
    (hroi : d.hoop_roi = some roi) (obj_id : Nat) (center : Int × Int)
    (velocity : Nat → Int × Int) (frame_number : Int) :
    d.update [(obj_id, center)] velocity frame_number
      = shot_step roi velocity frame_number d (obj_id, center) := by
  unfold ShotDetector.update
  rw [hroi]
  rfl

/-- C7: for an enabled machine with the identity at IDLE, observing the
identity above the rectangle, then inside it moving downward, then below it
increments shots_taken and shots_made by exactly one each, appends exactly
one "scored" log entry for the final frame and position, sets the
last-result slot, and returns the identity to IDLE. -/
theorem shot_scored_scenario (d : ShotDetector) (roi : Int × Int × Int × Int)
    (obj_id : Nat) (c1 c2 c3 : Int × Int) (v1 v2 v3 : Nat → Int × Int)
    (f1 f2 f3 : Int)
    (hroi : d.hoop_roi = some roi)
    (hstate : d.state_of obj_id = ShotState.IDLE)
    (h1 : is_above_roi roi c1)
    (h2 : is_in_roi roi c2) (h2v : is_moving_down (v2 obj_id))
    (h3 : is_below_roi roi c3) :
    (((d.update [(obj_id, c1)] v1 f1).update [(obj_id, c2)] v2 f2).update
        [(obj_id, c3)] v3 f3).shots_taken = d.shots_taken + 1
    ∧ (((d.update [(obj_id, c1)] v1 f1).update [(obj_id, c2)] v2 f2).update
        [(obj_id, c3)] v3 f3).shots_made = d.shots_made + 1
    ∧ (((d.update [(obj_id, c1)] v1 f1).update [(obj_id, c2)] v2 f2).update
        [(obj_id, c3)] v3 f3).shot_log
        = d.shot_log ++ [⟨f3, obj_id, "scored", c3⟩]
    ∧ (((d.update [(obj_id, c1)] v1 f1).update [(obj_id, c2)] v2 f2).update
        [(obj_id, c3)] v3 f3).last_shot_result = some ("scored", f3)
    ∧ (((d.update [(obj_id, c1)] v1 f1).update [(obj_id, c2)] v2 f2).update
        [(obj_id, c3)] v3 f3).state_of obj_id = ShotState.IDLE := by
  unfold ShotDetector.state_of at hstate
  have hd1 : d.update [(obj_id, c1)] v1 f1
      = { d with states := dictSet d.states obj_id ShotState.ABOVE_HOOP } := by
    rw [shot_update_single d roi hroi]
    unfold shot_step
    dsimp only
    rw [hstate, if_pos h1]
  set d1 : ShotDetector := { d with states := dictSet d.states obj_id ShotState.ABOVE_HOOP }
    with hd1def
  have hroi1 : d1.hoop_roi = some roi := by rw [hd1def]; exact hroi
  have hstate1 : (dictGet d1.states obj_id).getD ShotState.IDLE = ShotState.ABOVE_HOOP := by
    rw [hd1def]
    simp only [dictGet_dictSet_self, Option.getD_some]
  have hd2 : d1.update [(obj_id, c2)] v2 f2
      = { d1 with states := dictSet d1.states obj_id ShotState.IN_HOOP } := by
    rw [shot_update_single d1 roi hroi1]
    unfold shot_step
    dsimp only
    rw [hstate1,
      if_pos (show is_in_roi roi c2 ∧ is_moving_down (v2 obj_id) from ⟨h2, h2v⟩)]
  set d2 : ShotDetector := { d1 with states := dictSet d1.states obj_id ShotState.IN_HOOP }
    with hd2def
  have hroi2 : d2.hoop_roi = some roi := by rw [hd2def]; exact hroi1
  have hstate2 : (dictGet d2.states obj_id).getD ShotState.IDLE = ShotState.IN_HOOP := by
    rw [hd2def]
    simp only [dictGet_dictSet_self, Option.getD_some]
  have hd3 : d2.update [(obj_id, c3)] v3 f3
      = { d2 with
            states := dictSet (dictSet d2.states obj_id ShotState.SCORED) obj_id ShotState.IDLE,
            shots_taken := d2.shots_taken + 1,
            shots_made := d2.shots_made + 1,
            last_shot_result := some ("scored", f3),
            shot_log := d2.shot_log ++ [⟨f3, obj_id, "scored", c3⟩] } := by
    rw [shot_update_single d2 roi hroi2]
    unfold shot_step
    dsimp only
    rw [hstate2, if_pos h3]
  rw [hd1, hd2, hd3]
  have htaken : d2.shots_taken = d.shots_taken := by rw [hd2def, hd1def]
  have hmade : d2.shots_made = d.shots_made := by rw [hd2def, hd1def]
  have hlog : d2.shot_log = d.shot_log := by rw [hd2def, hd1def]
  refine ⟨by rw [htaken], by rw [hmade], by rw [hlog], rfl, ?_⟩
  unfold ShotDetector.state_of
  simp only [dictSet_dictSet, dictGet_dictSet_self, Option.getD_some]

/-- Witness for C7 at a concrete machine, rectangle and frame sequence. -/
theorem shot_scored_scenario_witness :
    ((((ShotDetector.init (some (0, 0, 10, 10))).update [(0, ((5 : Int), (-5 : Int)))]
          (fun _ => (0, 0)) 1).update [(0, ((5 : Int), (5 : Int)))]
          (fun _ => (0, 1)) 2).update [(0, ((5 : Int), (20 : Int)))]
          (fun _ => (0, 2)) 3).shots_taken = 0 + 1
    ∧ ((((ShotDetector.init (some (0, 0, 10, 10))).update [(0, ((5 : Int), (-5 : Int)))]
          (fun _ => (0, 0)) 1).update [(0, ((5 : Int), (5 : Int)))]
          (fun _ => (0, 1)) 2).update [(0, ((5 : Int), (20 : Int)))]
          (fun _ => (0, 2)) 3).shots_made = 0 + 1
    ∧ ((((ShotDetector.init (some (0, 0, 10, 10))).update [(0, ((5 : Int), (-5 : Int)))]
          (fun _ => (0, 0)) 1).update [(0, ((5 : Int), (5 : Int)))]
          (fun _ => (0, 1)) 2).update [(0, ((5 : Int), (20 : Int)))]
          (fun _ => (0, 2)) 3).shot_log = [] ++ [⟨3, 0, "scored", (5, 20)⟩]
    ∧ ((((ShotDetector.init (some (0, 0, 10, 10))).update [(0, ((5 : Int), (-5 : Int)))]
          (fun _ => (0, 0)) 1).update [(0, ((5 : Int), (5 : Int)))]
          (fun _ => (0, 1)) 2).update [(0, ((5 : Int), (20 : Int)))]
          (fun _ => (0, 2)) 3).last_shot_result = some ("scored", 3)
    ∧ ((((ShotDetector.init (some (0, 0, 10, 10))).update [(0, ((5 : Int), (-5 : Int)))]
          (fun _ => (0, 0)) 1).update [(0, ((5 : Int), (5 : Int)))]
          (fun _ => (0, 1)) 2).update [(0, ((5 : Int), (20 : Int)))]
          (fun _ => (0, 2)) 3).state_of 0 = ShotState.IDLE :=
  shot_scored_scenario (ShotDetector.init (some (0, 0, 10, 10))) (0, 0, 10, 10) 0
    (5, -5) (5, 5) (5, 20) (fun _ => (0, 0)) (fun _ => (0, 1)) (fun _ => (0, 2)) 1 2 3
    rfl rfl (by decide) (by decide) (by decide) (by decide)

/-! ### Recent shot result (claim C10) -/

/-- C10: `get_recent_shot_result` imposes no lower bound on the age of the
remembered shot: whenever `frame_number - shot_frame ≤ flash_duration`,
including a negative age, it returns the result and that signed age. -/
theorem get_recent_shot_result_no_lower_bound (d : ShotDetector) (result : String)
    (shot_frame frame_number flash_duration : Int)
    (hlast : d.last_shot_result = some (result, shot_frame))
    (hage : frame_number - shot_frame ≤ flash_duration) :
    d.get_recent_shot_result frame_number flash_duration
      = some (result, frame_number - shot_frame) := by
  unfold ShotDetector.get_recent_shot_result
  rw [hlast]
  simp only
  rw [if_pos hage]

/-- Witness for C10 with a query frame 50 frames before the recorded shot:
the age is negative and the result is still reported. -/
theorem get_recent_shot_result_no_lower_bound_witness :
    ((⟨none, [], 1, 1, [], some ("scored", 100)⟩ : ShotDetector).last_shot_result
        = some ("scored", 100))
    ∧ ((50 : Int) - 100 ≤ 30)
    ∧ (⟨none, [], 1, 1, [], some ("scored", 100)⟩ : ShotDetector).get_recent_shot_result 50 30
        = some ("scored", 50 - 100) :=
  ⟨rfl, by decide,
   get_recent_shot_result_no_lower_bound _ "scored" 100 50 30 rfl (by decide)⟩

/-! ### Trajectory fitting (trajectory.py, claim C8) -/

/-- The per-identity position buffers of `TrajectoryAnalyzer` (the part
`fit_trajectory` reads); an identity absent from the map has no buffered
positions. -/
structure TrajectoryAnalyzer where
  positions : List (Nat × List (Int × Int))
deriving Repr

/-- `np.ptp`: the range (max minus min) of a list of integers. -/
def ptp : List Int → Int
  | [] => 0
  | x :: xs => xs.foldl max x - xs.foldl min x

/-- `TrajectoryAnalyzer.fit_trajectory`, with the numerical least-squares
fit abstracted as a total oracle `polyfit x y degree` returning `none`
exactly where `np.polyfit` raises `LinAlgError` or `ValueError` (the
source's `try/except` maps those to `None`, so no numeric exception ever
propagates): return no fit for a missing identity or fewer than 3 buffered
positions, or when the x-range over the buffer is under 1 pixel, otherwise
the oracle's degree-`POLYFIT_DEGREE` coefficients over all buffered
positions. -/
def fit_trajectory (polyfit : List Int → List Int → Nat → Option (List ℚ))
    (ta : TrajectoryAnalyzer) (obj_id : Nat) : Option (List ℚ) :=
  match dictGet ta.positions obj_id with
  | none => none
  | some positions =>
    if positions.length < 3 then none
    else
      let x := positions.map Prod.fst
      let y := positions.map Prod.snd
      if ptp x < 1 then none
      else polyfit x y POLYFIT_DEGREE

/-- C8: `fit_trajectory` returns the explicit no-fit result exactly when
fewer than 3 positions are buffered, or the x-range across the buffer is
under 1 pixel, or the numerical fit fails; otherwise it returns the
degree-2 least-squares coefficients over all buffered positions.  Being a
total function into `Option`, it never propagates a numeric exception. -/
theorem fit_trajectory_no_fit_exactly (polyfit : List Int → List Int → Nat → Option (List ℚ))
    (ta : TrajectoryAnalyzer) (obj_id : Nat) :
    (fit_trajectory polyfit ta obj_id = none
      ↔ ((dictGet ta.positions obj_id).getD []).length < 3
        ∨ ptp (((dictGet ta.positions obj_id).getD []).map Prod.fst) < 1
        ∨ polyfit (((dictGet ta.positions obj_id).getD []).map Prod.fst)
            (((dictGet ta.positions obj_id).getD []).map Prod.snd) POLYFIT_DEGREE = none)
    ∧ (¬ ((dictGet ta.positions obj_id).getD []).length < 3 →
       ¬ ptp (((dictGet ta.positions obj_id).getD []).map Prod.fst) < 1 →
        fit_trajectory polyfit ta obj_id
          = polyfit (((dictGet ta.positions obj_id).getD []).map Prod.fst)
              (((dictGet ta.positions obj_id).getD []).map Prod.snd) POLYFIT_DEGREE) := by
  unfold fit_trajectory
  cases hget : dictGet ta.positions obj_id with
  | none => simp
  | some positions =>
    simp only [Option.getD_some]
    by_cases hlen : positions.length < 3
    · simp [hlen]
    · by_cases hptp : ptp (positions.map Prod.fst) < 1
      · simp [hlen, hptp]
      · simp [hlen, hptp]

/-- Witness for C8 on a three-point buffer with a constant oracle. -/
theorem fit_trajectory_no_fit_exactly_witness :
    (¬ ((dictGet (⟨[(0, [((0 : Int), (0 : Int)), (1, 1), (2, 4)])]⟩ :
          TrajectoryAnalyzer).positions 0).getD []).length < 3)
    ∧ (¬ ptp ((((dictGet (⟨[(0, [((0 : Int), (0 : Int)), (1, 1), (2, 4)])]⟩ :
          TrajectoryAnalyzer).positions 0).getD []).map Prod.fst)) < 1)
    ∧ fit_trajectory (fun _ _ _ => some [1, 0, 0])
        ⟨[(0, [((0 : Int), (0 : Int)), (1, 1), (2, 4)])]⟩ 0 = some [1, 0, 0] :=
  ⟨by decide, by decide,
   ((fit_trajectory_no_fit_exactly (fun _ _ _ => some [1, 0, 0])
        ⟨[(0, [((0 : Int), (0 : Int)), (1, 1), (2, 4)])]⟩ 0).2 (by decide) (by decide))⟩

/-! ### Detector input validation (claim C1) -/

/-- An input frame, abstracted to its shape: pixel grid dimensions and
channel count. -/
structure Frame where
  rows : Nat
  cols : Nat
  channels : Nat
deriving DecidableEq, Repr

/-- The image-processing stages of the detector that operate on a valid
mask, abstracted as total functions: the chain of inRange/blur/morphology
after the colour conversion, the contour candidate stage and the Hough
candidate stage.  None of them can fail on a well-formed input (the Hough
stage returning nothing is a normal outcome — an empty candidate list). -/
structure DetectStages where
  color_mask : Frame → Frame
  detect_contours : Frame → List Detection
  detect_hough : Frame → List Detection

/-- A frame violating the caller contract: an empty buffer or a channel
count other than 3. -/
def malformed_frame (frame : Frame) : Prop :=
  frame.rows = 0 ∨ frame.cols = 0 ∨ frame.channels ≠ 3

instance (frame : Frame) : Decidable (malformed_frame frame) := by
  unfold malformed_frame
  infer_instance

/-- Modelled from the spec: the repository performs no frame validation of
its own — `detect` begins with OpenCV's `cvtColor` (BGR→HSV), whose checked
precondition rejects an empty buffer and a channel count other than 3 by
raising `cv2.error`; the spec (§6) fixes valid input as height×width×3
frames and (§7) calls a malformed frame a fail-fast contract violation.
This definition models that external check as the explicit invalid-input
signal. -/
def cvtColor_BGR2HSV (frame : Frame) : Except String Frame :=
  if frame.rows = 0 ∨ frame.cols = 0 then Except.error "cvtColor: empty source image"
  else if frame.channels ≠ 3 then Except.error "cvtColor: invalid number of channels"
  else Except.ok frame

/-- `BallDetector._create_color_mask`: colour conversion followed by the
threshold/blur/morphology chain. -/
def create_color_mask (stages : DetectStages) (frame : Frame) : Except String Frame :=
  match cvtColor_BGR2HSV frame with
  | Except.error e => Except.error e
  | Except.ok hsv => Except.ok (stages.color_mask hsv)

/-- `BallDetector.detect`: the full pipeline — colour mask, contour
candidates, Hough candidates, fusion.  An error from the colour conversion
propagates; otherwise the result is the fused candidate list. -/
def detect (stages : DetectStages) (frame : Frame) : Except String (List Detection) :=
  match create_color_mask stages frame with
  | Except.error e => Except.error e
  | Except.ok mask =>
    Except.ok (fuse_detections (stages.detect_contours mask) (stages.detect_hough mask))

/-- C1: on every malformed frame `detect` fails fast with an explicit
invalid-input signal and in particular never returns an empty detection
list; on every well-formed frame it succeeds, returning the fused candidate
list (possibly empty — success, not an error). -/
theorem detect_fail_fast (stages : DetectStages) (frame : Frame) :
    (malformed_frame frame →
      (∃ e, detect stages frame = Except.error e)
      ∧ ∀ dets : List Detection, detect stages frame ≠ Except.ok dets)
    ∧ (¬ malformed_frame frame →
      detect stages frame
        = Except.ok (fuse_detections
            (stages.detect_contours (stages.color_mask frame))
            (stages.detect_hough (stages.color_mask frame)))) := by
  constructor
  · intro hmal
    have herr : ∃ e, detect stages frame = Except.error e := by
      unfold detect create_color_mask cvtColor_BGR2HSV
      rcases hmal with h | h | h
      · rw [if_pos (Or.inl h)]
        exact ⟨_, rfl⟩
      · rw [if_pos (Or.inr h)]
        exact ⟨_, rfl⟩
      · by_cases hemp : frame.rows = 0 ∨ frame.cols = 0
        · rw [if_pos hemp]
          exact ⟨_, rfl⟩
        · rw [if_neg hemp, if_pos h]
          exact ⟨_, rfl⟩
    refine ⟨herr, ?_⟩
    intro dets hok
    obtain ⟨e, he⟩ := herr
    rw [hok] at he
    exact Except.noConfusion he
  · intro hmal
    unfold malformed_frame at hmal
    push_neg at hmal
    unfold detect create_color_mask cvtColor_BGR2HSV
    rw [if_neg (by rintro (h | h); exacts [hmal.1 h, hmal.2.1 h]), if_neg (by
      intro h
      exact h hmal.2.2)]

/-- Witness for C1: a 2-channel frame is rejected with an error, a
3-channel frame yields a successful (here empty) detection list. -/
theorem detect_fail_fast_witness :
    (malformed_frame ⟨4, 4, 2⟩
     ∧ (∃ e, detect ⟨id, fun _ => [], fun _ => []⟩ ⟨4, 4, 2⟩ = Except.error e)
     ∧ ∀ dets : List Detection,
         detect ⟨id, fun _ => [], fun _ => []⟩ ⟨4, 4, 2⟩ ≠ Except.ok dets)
    ∧ (¬ malformed_frame ⟨4, 4, 3⟩
     ∧ detect ⟨id, fun _ => [], fun _ => []⟩ ⟨4, 4, 3⟩ = Except.ok []) :=
  ⟨⟨by decide, (detect_fail_fast ⟨id, fun _ => [], fun _ => []⟩ ⟨4, 4, 2⟩).1 (by decide)⟩,
   ⟨by decide, (detect_fail_fast ⟨id, fun _ => [], fun _ => []⟩ ⟨4, 4, 3⟩).2 (by decide)⟩⟩

end BasketballAnalytics
